import Mathlib

/-!
# Verification development for `relay.go`

A shallow embedding of the relay's gating pipeline (`checkIfSourceIsAllowed`,
`init`, `checkIfDestinationIsBlocked`, `Server.Run`, `Client.handleRequest`)
together with the Go standard-library functions these call (`bufio.ReadBytes`,
`strings.Split`, `strings.Replace`, `strings.Contains`, `net.SplitHostPort`,
`net.ParseIP`, `net.ParseCIDR`, `IPNet.Contains`, `IP.To4`, `IP.String`).

Go strings and byte slices are lists of bytes (natural numbers); effects
(reads, DNS lookups, dials, closes) are recorded as a trace of events.
-/

namespace Relay

/-! ## Go strings -/

/-- A Go `string` or `[]byte`: its sequence of bytes. -/
abbrev GoString := List Nat

/-- The bytes of an ASCII literal. -/
def ascii (s : String) : GoString := s.data.map Char.toNat

/-- Go `bytealg.IndexByteString`: index of the first `c` in `s` (`none` for -1). -/
def IndexByte (c : Nat) : GoString → Option Nat
  | [] => none
  | b :: t => if b = c then some 0 else (IndexByte c t).map (· + 1)

/-- Go `bytealg.LastIndexByteString`: index of the last `c` in `s` (`none` for -1). -/
def LastIndexByte (c : Nat) : GoString → Option Nat
  | [] => none
  | b :: t =>
    match LastIndexByte c t with
    | some i => some (i + 1)
    | none => if b = c then some 0 else none

/-- Go `bufio.Reader.ReadBytes(delim)` on a stream that delivers the bytes of
the list and then ends: the data up to and including the first `delim`, or
all the data and an error flag when the stream ends first. -/
def ReadBytes (delim : Nat) : List Nat → List Nat × Bool
  | [] => ([], true)
  | b :: t =>
    if b = delim then ([b], false)
    else ((b :: (ReadBytes delim t).1), (ReadBytes delim t).2)

/-- Go `strings.Split(s, sep)` for a one-byte separator. -/
def Split (sep : Nat) : GoString → List GoString
  | [] => [[]]
  | b :: t =>
    if b = sep then [] :: Split sep t
    else
      match Split sep t with
      | [] => [[b]]
      | f :: fs => (b :: f) :: fs

/-- Go `strings.Replace(s, old, new, -1)` for one-byte `old` and `new`. -/
def Replace (old new : Nat) : GoString → GoString
  | [] => []
  | b :: t => (if b = old then new else b) :: Replace old new t

/-- Go `strings.Contains(s, substr)`. -/
def Contains : GoString → GoString → Bool
  | [], sub => sub.isEmpty
  | b :: t, sub => sub.isPrefixOf (b :: t) || Contains t sub

/-- Go `net.SplitHostPort`; `none` stands for a non-nil error. -/
def SplitHostPort (hostport : GoString) : Option (GoString × GoString) :=
  match LastIndexByte 58 hostport with
  | none => none                                   -- missing port in address
  | some i =>
    if hostport.head? = some 91 then               -- hostport[0] == '['
      match IndexByte 93 hostport with
      | none => none                               -- missing ']' in address
      | some e =>
        if e + 1 = hostport.length then none       -- missing port
        else if e + 1 = i then
          let host := (hostport.take e).drop 1
          if (IndexByte 91 (hostport.drop 1)).isSome then none
          else if (IndexByte 93 (hostport.drop (e + 1))).isSome then none
          else some (host, hostport.drop (i + 1))
        else none                                  -- too many colons / missing port
    else
      let host := hostport.take i
      if (IndexByte 58 host).isSome then none      -- too many colons in address
      else if (IndexByte 91 hostport).isSome then none
      else if (IndexByte 93 hostport).isSome then none
      else some (host, hostport.drop (i + 1))

/-! ## Go `net` / `net/netip` address parsing -/

/-- A `net.IP`: a byte slice (4 or 16 bytes for a valid address). -/
abbrev IP := List Nat

/-- A `netip.Addr`: its 16-byte form, whether it is a plain IPv4 address, and its zone. -/
structure Addr where
  bytes : List Nat
  is4 : Bool
  zone : GoString
deriving DecidableEq, Repr

/-- Go `Addr.BitLen`. -/
def Addr.BitLen (a : Addr) : Nat := if a.is4 then 32 else 128

/-- The loop of Go `netip.parseIPv4`; `i` is the index of the next byte, `prev`
the byte before it, `len` the length of the whole string. -/
def parseIPv4Loop (len : Nat) :
    GoString → Nat → Nat → List Nat → Nat → Nat → Nat → Option (List Nat × Nat × Nat)
  | [], _, _, fields, val, pos, _ => some (fields, val, pos)
  | c :: rest, i, prev, fields, val, pos, digLen =>
    if 48 ≤ c ∧ c ≤ 57 then
      if digLen = 1 ∧ val = 0 then none            -- octet with leading zero
      else if val * 10 + (c - 48) > 255 then none  -- value >255
      else parseIPv4Loop len rest (i + 1) c fields (val * 10 + (c - 48)) pos (digLen + 1)
    else if c = 46 then
      if i = 0 ∨ i + 1 = len ∨ prev = 46 then none -- field must have at least one digit
      else if pos = 3 then none                    -- address too long
      else parseIPv4Loop len rest (i + 1) c (fields.set pos val) 0 (pos + 1) 0
    else none                                      -- unexpected character

/-- Go `netip.parseIPv4`: the four octets. -/
def parseIPv4 (s : GoString) : Option (List Nat) :=
  match parseIPv4Loop s.length s 0 0 [0, 0, 0, 0] 0 0 0 with
  | none => none
  | some (fields, val, pos) =>
    if pos < 3 then none                           -- address too short
    else some (fields.set 3 val)

/-- Value of a hexadecimal digit byte. -/
def hexVal (c : Nat) : Option Nat :=
  if 48 ≤ c ∧ c ≤ 57 then some (c - 48)
  else if 97 ≤ c ∧ c ≤ 102 then some (c - 97 + 10)
  else if 65 ≤ c ∧ c ≤ 70 then some (c - 65 + 10)
  else none

/-- The inner hex-group loop of Go `netip.parseIPv6`: `(off, acc)` at the loop
exit, `none` on an error return (`acc` is a `uint32`). -/
def scanHex : GoString → Nat → Nat → Option (Nat × Nat)
  | [], off, acc => some (off, acc)
  | c :: rest, off, acc =>
    match hexVal c with
    | none => some (off, acc)
    | some d =>
      if off > 3 then none                          -- more than 4 digits in group
      else if (acc * 16 + d) % 2 ^ 32 > 65535 then none
      else scanHex rest (off + 1) ((acc * 16 + d) % 2 ^ 32)

/-- The outer loop `for i < 16` of Go `netip.parseIPv6`. Every iteration that
continues adds 2 to `i`, so eight iterations are the most that can run; the
first argument counts them down. The result is `(s, ip, i, ellipsis)` at the
loop exit, `none` on an error return; `ellipsis = none` stands for -1. -/
def parseIPv6Loop :
    Nat → GoString → List Nat → Nat → Option Nat → Option (GoString × List Nat × Nat × Option Nat)
  | 0, s, ip, i, ell => some (s, ip, i, ell)
  | fuel + 1, s, ip, i, ell =>
    if ¬ i < 16 then some (s, ip, i, ell)
    else
      match scanHex s 0 0 with
      | none => none
      | some (off, acc) =>
        if off = 0 then none                        -- no digits found
        else if s.get? off = some 46 then           -- followed by a dot: trailing IPv4
          if ell = none ∧ i ≠ 12 then none
          else if i + 4 > 16 then none
          else
            match parseIPv4 s with
            | none => none
            | some ip4 =>
              some ([], (((ip.set i (ip4.getD 0 0)).set (i + 1) (ip4.getD 1 0)).set (i + 2)
                (ip4.getD 2 0)).set (i + 3) (ip4.getD 3 0), i + 4, ell)
        else
          let ip1 := (ip.set i (acc / 256)).set (i + 1) (acc % 256)
          let s1 := s.drop off
          if s1.length = 0 then some (s1, ip1, i + 2, ell)
          else if s1.head? ≠ some 58 then none      -- unexpected character, want colon
          else if s1.length = 1 then none           -- colon must be followed by more
          else
            let s2 := s1.drop 1
            if s2.head? = some 58 then
              if ell.isSome then none               -- multiple :: in address
              else if (s2.drop 1).length = 0 then some (s2.drop 1, ip1, i + 2, some (i + 2))
              else parseIPv6Loop fuel (s2.drop 1) ip1 (i + 2) (some (i + 2))
            else parseIPv6Loop fuel s2 ip1 (i + 2) ell

/-- The part of Go `netip.parseIPv6` after the zone and a leading `::` have
been split off: run the loop, then expand the ellipsis. -/
def parseIPv6Groups (s : GoString) (ell : Option Nat) : Option (List Nat) :=
  match parseIPv6Loop 8 s (List.replicate 16 0) 0 ell with
  | none => none
  | some (s1, ip, i, ell1) =>
    if s1.length ≠ 0 then none                      -- trailing garbage after address
    else if i < 16 then
      match ell1 with
      | none => none                                -- address string too short
      | some e =>
        -- move ip[e:i] to the end and clear ip[e:e+n], n = 16 - i
        some (ip.take e ++ List.replicate (16 - i) 0 ++ (ip.drop e).take (i - e))
    else if ell1.isSome then none                   -- :: must expand to at least one field
    else some ip

/-- Go `netip.parseIPv6`. -/
def parseIPv6 (inp : GoString) : Option Addr :=
  let split : Option (GoString × GoString) :=
    match IndexByte 37 inp with
    | none => some (inp, [])
    | some i => if inp.drop (i + 1) = [] then none else some (inp.take i, inp.drop (i + 1))
  match split with
  | none => none                                    -- zone must be a non-empty string
  | some (s, zone) =>
    if 2 ≤ s.length ∧ s.get? 0 = some 58 ∧ s.get? 1 = some 58 then
      if (s.drop 2).length = 0 then some ⟨List.replicate 16 0, false, zone⟩
      else (parseIPv6Groups (s.drop 2) (some 0)).map (fun ip => ⟨ip, false, zone⟩)
    else (parseIPv6Groups s none).map (fun ip => ⟨ip, false, zone⟩)

/-- The 12-byte prefix of an IPv4 address in 16-byte form. -/
def v4InV6Prefix : List Nat := [0, 0, 0, 0, 0, 0, 0, 0, 0, 0, 255, 255]

/-- The scan of Go `netip.ParseAddr` for the first of `.`, `:` and `%`. -/
def ParseAddrScan (s : GoString) : GoString → Option Addr
  | [] => none                                      -- unable to parse IP
  | c :: rest =>
    if c = 46 then (parseIPv4 s).map (fun f => ⟨v4InV6Prefix ++ f, true, []⟩)
    else if c = 58 then parseIPv6 s
    else if c = 37 then none                        -- missing IPv6 address
    else ParseAddrScan s rest

/-- Go `netip.ParseAddr`. -/
def ParseAddr (s : GoString) : Option Addr := ParseAddrScan s s

/-- Go `net.ParseIP`: the 16-byte form of the address, `none` for nil. -/
def ParseIP (s : GoString) : Option IP :=
  match ParseAddr s with
  | none => none
  | some a => if a.zone ≠ [] then none else some a.bytes

/-- Go `IP.To4`. -/
def To4 (ip : IP) : Option IP :=
  if ip.length = 4 then some ip
  else if ip.length = 16 ∧ (ip.take 10).all (· = 0) ∧ ip.get? 10 = some 255
      ∧ ip.get? 11 = some 255 then some ((ip.drop 12).take 4)
  else none

/-- Go `ubtoa`: decimal digits of a byte. -/
def ubtoa (v : Nat) : GoString :=
  if v < 10 then [v + 48]
  else if v < 100 then [v / 10 + 48, v % 10 + 48]
  else [v / 100 + 48, (v / 10) % 10 + 48, v % 10 + 48]

/-- Go `IP.String` on a 4-byte address (the only form `handleRequest` prints):
the dotted-decimal text. -/
def IP.String (ip : IP) : GoString :=
  ((ip.map ubtoa).intersperse [46]).flatten

/-- A `net.IPNet`. -/
structure IPNet where
  IP : IP
  Mask : List Nat
deriving DecidableEq, Repr

/-- The loop of Go `net.CIDRMask` over `l` bytes with `n` ones left. -/
def CIDRMaskLoop : Nat → Nat → List Nat
  | 0, _ => []
  | l + 1, n =>
    if n ≥ 8 then 255 :: CIDRMaskLoop l (n - 8)
    else (255 - 255 / 2 ^ n) :: CIDRMaskLoop l 0

/-- Go `net.CIDRMask(ones, bits)`; `[]` for nil. -/
def CIDRMask (ones bits : Nat) : List Nat :=
  if bits ≠ 32 ∧ bits ≠ 128 then []
  else if ones > bits then []
  else CIDRMaskLoop (bits / 8) ones

/-- Go `IP.Mask`; `[]` for nil. -/
def IP.Mask (ip : IP) (mask : List Nat) : IP :=
  let mask1 := if mask.length = 16 ∧ ip.length = 4 ∧ (mask.take 12).all (· = 255)
    then mask.drop 12 else mask
  let ip1 := if mask1.length = 4 ∧ ip.length = 16 ∧ ip.take 12 = v4InV6Prefix
    then ip.drop 12 else ip
  if ip1.length ≠ mask1.length then []
  else List.zipWith (· &&& ·) ip1 mask1

/-- Go `net.dtoi`: `(n, i, ok)`. -/
def dtoiLoop : GoString → Nat → Nat → Nat × Nat × Bool
  | [], n, i => if i = 0 then (0, 0, false) else (n, i, true)
  | c :: rest, n, i =>
    if 48 ≤ c ∧ c ≤ 57 then
      if n * 10 + (c - 48) ≥ 16777215 then (16777215, i, false)
      else dtoiLoop rest (n * 10 + (c - 48)) (i + 1)
    else if i = 0 then (0, 0, false) else (n, i, true)

/-- Go `net.ParseCIDR`, the `*IPNet` result; `none` for a non-nil error. -/
def ParseCIDR (s : GoString) : Option IPNet :=
  match IndexByte 47 s with
  | none => none
  | some i =>
    let addr := s.take i
    let mask := s.drop (i + 1)
    match ParseAddr addr with
    | none => none
    | some ipAddr =>
      if ipAddr.zone ≠ [] then none
      else
        match dtoiLoop mask 0 0 with
        | (n, j, ok) =>
          if ¬ ok ∨ j ≠ mask.length ∨ n > ipAddr.BitLen then none
          else
            let m := CIDRMask n ipAddr.BitLen
            some ⟨IP.Mask ipAddr.bytes m, m⟩

/-- Go `net.networkNumberAndMask`; `none` for `(nil, nil)`. -/
def networkNumberAndMask (n : IPNet) : Option (IP × List Nat) :=
  let ip? : Option IP :=
    match To4 n.IP with
    | some ip => some ip
    | none => if n.IP.length ≠ 16 then none else some n.IP
  match ip? with
  | none => none
  | some ip =>
    if n.Mask.length = 4 then
      if ip.length ≠ 4 then none else some (ip, n.Mask)
    else if n.Mask.length = 16 then
      if ip.length = 4 then some (ip, n.Mask.drop 12) else some (ip, n.Mask)
    else none

/-- Go `IPNet.Contains`. -/
def IPNet.Contains (n : IPNet) (ip : Relay.IP) : Bool :=
  let (nn, m) := (networkNumberAndMask n).getD ([], [])
  let ip1 := (To4 ip).getD ip
  if ip1.length ≠ nn.length then false
  else (List.range ip1.length).all
    (fun i => nn.getD i 0 &&& m.getD i 0 = ip1.getD i 0 &&& m.getD i 0)

/-! ## Package-level data of `relay.go` -/

/-- Go indexing `m[k]` of a `map[string]bool` given by its literal: the value
stored under `k`, the zero value `false` when `k` is absent. -/
def mapIndex (m : List (GoString × Bool)) (k : GoString) : Bool :=
  (m.lookup k).getD false

/-- The map literal `torrentTrackers` (list of torrent trackers). -/
def torrentTrackers : List (GoString × Bool) :=
  [(ascii "93.158.213.92", true),
   (ascii "102.223.180.235", true),
   (ascii "23.134.88.6", true),
   (ascii "185.243.218.213", true),
   (ascii "208.83.20.20", true),
   (ascii "91.216.110.52", true),
   (ascii "83.146.97.90", true),
   (ascii "23.157.120.14", true),
   (ascii "185.102.219.163", true),
   (ascii "163.172.29.130", true),
   (ascii "156.234.201.18", true),
   (ascii "209.141.59.16", true),
   (ascii "34.94.213.23", true),
   (ascii "192.3.165.191", true),
   (ascii "130.61.55.93", true),
   (ascii "109.201.134.183", true),
   (ascii "95.31.11.224", true),
   (ascii "83.102.180.21", true),
   (ascii "192.95.46.115", true),
   (ascii "198.100.149.66", true),
   (ascii "95.216.74.39", true),
   (ascii "51.68.174.87", true),
   (ascii "37.187.111.136", true),
   (ascii "51.15.79.209", true),
   (ascii "45.92.156.182", true),
   (ascii "49.12.76.8", true),
   (ascii "5.196.89.204", true),
   (ascii "62.233.57.13", true),
   (ascii "45.9.60.30", true),
   (ascii "35.227.12.84", true),
   (ascii "179.43.155.30", true),
   (ascii "94.243.222.100", true),
   (ascii "207.241.231.226", true),
   (ascii "207.241.226.111", true),
   (ascii "51.159.54.68", true),
   (ascii "82.65.115.10", true),
   (ascii "95.217.167.10", true),
   (ascii "86.57.161.157", true),
   (ascii "83.31.30.230", true),
   (ascii "94.103.87.87", true),
   (ascii "160.119.252.41", true),
   (ascii "193.42.111.57", true),
   (ascii "80.240.22.46", true),
   (ascii "107.189.31.134", true),
   (ascii "104.244.79.114", true),
   (ascii "85.239.33.28", true),
   (ascii "61.222.178.254", true),
   (ascii "38.7.201.142", true),
   (ascii "51.81.222.188", true),
   (ascii "103.196.36.31", true),
   (ascii "23.153.248.2", true),
   (ascii "73.170.204.100", true),
   (ascii "176.31.250.174", true),
   (ascii "149.56.179.233", true),
   (ascii "212.237.53.230", true),
   (ascii "185.68.21.244", true),
   (ascii "82.156.24.219", true),
   (ascii "216.201.9.155", true),
   (ascii "51.15.41.46", true),
   (ascii "85.206.172.159", true),
   (ascii "104.244.77.87", true),
   (ascii "37.27.4.53", true),
   (ascii "192.3.165.198", true),
   (ascii "15.204.205.14", true),
   (ascii "103.122.21.50", true),
   (ascii "104.131.98.232", true),
   (ascii "173.249.201.201", true),
   (ascii "23.254.228.89", true),
   (ascii "5.102.159.190", true),
   (ascii "65.130.205.148", true),
   (ascii "119.28.71.45", true),
   (ascii "159.69.65.157", true),
   (ascii "160.251.78.190", true),
   (ascii "107.189.7.143", true),
   (ascii "159.65.224.91", true),
   (ascii "185.217.199.21", true),
   (ascii "91.224.92.110", true),
   (ascii "161.97.67.210", true),
   (ascii "51.15.3.74", true),
   (ascii "209.126.11.233", true),
   (ascii "37.187.95.112", true),
   (ascii "167.99.185.219", true),
   (ascii "144.91.88.22", true),
   (ascii "88.99.2.212", true),
   (ascii "37.59.48.81", true),
   (ascii "95.179.130.187", true),
   (ascii "51.15.26.25", true),
   (ascii "192.9.228.30", true)]

/-- The slice literal `cfRanges` (list of Cloudflare IP ranges). -/
def cfRanges : List GoString :=
  [ascii "127.0.0.0/8",
   ascii "103.21.244.0/22",
   ascii "103.22.200.0/22",
   ascii "103.31.4.0/22",
   ascii "104.16.0.0/12",
   ascii "108.162.192.0/18",
   ascii "131.0.72.0/22",
   ascii "141.101.64.0/18",
   ascii "162.158.0.0/15",
   ascii "172.64.0.0/13",
   ascii "173.245.48.0/20",
   ascii "188.114.96.0/20",
   ascii "190.93.240.0/20",
   ascii "197.234.240.0/22",
   ascii "198.41.128.0/17",
   ascii "::1/128",
   ascii "2400:cb00::/32",
   ascii "2405:8100::/32",
   ascii "2405:b500::/32",
   ascii "2606:4700::/32",
   ascii "2803:f800::/32",
   ascii "2c0f:f248::/32",
   ascii "2a06:98c0::/29"]

/-! ## The source and destination gates -/

/-- The function `checkIfDestinationIsBlocked`: `torrentTrackers[ipAddress]`,
with the package-level map passed explicitly. -/
def checkIfDestinationIsBlocked (trackers : List (GoString × Bool)) (ipAddress : GoString) :
    Bool :=
  mapIndex trackers ipAddress

/-- The function `init`: the value of `ipRange` after the loop over the
range strings; an entry that fails to parse is skipped. -/
def init : List GoString → List IPNet
  | [] => []
  | r :: rest =>
    match ParseCIDR r with
    | none => init rest
    | some cidr => cidr :: init rest

/-- The package-level variable `ipRange` once `init` has run. -/
def ipRange : List IPNet := init cfRanges

/-- The loop `for _, r := range ipRange` of `checkIfSourceIsAllowed`. -/
def anyContains : List IPNet → IP → Bool
  | [], _ => false
  | r :: rest, ip => if r.Contains ip then true else anyContains rest ip

/-- The function `checkIfSourceIsAllowed`, with `ipRange` passed explicitly. -/
def checkIfSourceIsAllowed (ranges : List IPNet) (ipAddress : GoString) : Bool :=
  match ParseIP ipAddress with
  | none => false
  | some ip => anyContains ranges ip

/-! ## `Client.handleRequest` -/

/-- What lies outside the process: the resolver and the network. -/
structure World where
  /-- The address list of `net.LookupIP(host)` (empty when it fails). -/
  lookupIP : GoString → List IP
  /-- Whether `net.Dial(network, address)` succeeds. -/
  dial : GoString → GoString → Bool

/-- Effects of one run of `handleRequest`, with two markers for the points
where the header has been decoded and where `blockFlag` is tested. -/
inductive Event where
  /-- The call `reader.ReadBytes(byte(13))` on the inbound connection. -/
  | readHeader
  /-- Marker: the header is decoded into `network` and `address`. -/
  | headerParsed (network address : GoString)
  /-- The call `net.LookupIP(dh)`. -/
  | lookupIP (host : GoString)
  /-- Marker: the test `if blockFlag` with the flag's value. -/
  | gate (blocked : Bool)
  /-- The log line "destination host is blocked". -/
  | logBlocked (address : GoString)
  /-- The call `handleUDPOverTCP(client.conn, address)`. -/
  | tunnel (address : GoString)
  /-- The log line "Dialing to". -/
  | logDialing (network address : GoString)
  /-- The call `net.Dial(network, address)` and whether it succeeded. -/
  | dial (network address : GoString) (ok : Bool)
  /-- The log line "failed to connect to socket". -/
  | logDialFailed
  /-- The statement `go Copy(client.conn, rConn)`: inbound to outbound. -/
  | goCopy
  /-- The call `Copy(rConn, client.conn)`: outbound to inbound, writes to the client. -/
  | copy
  /-- The call `rConn.Close()`. -/
  | closeRemote
  /-- The deferred `client.conn.Close()`. -/
  | closeInbound
deriving DecidableEq, Repr

/-- The substring of the ad-hoc policy guard. -/
def tempMail : GoString := ascii "temp-mail.org"

/-- Lines 229-242 of `handleRequest`: read the header and decode it into
`(network, address)`; `none` when the handler returns at one of the two
length checks. -/
def decodeHeader (stream : List Nat) : Option (GoString × GoString) :=
  let header := (ReadBytes 13 stream).1
  if header.length < 1 then none
  else
    let inputHeader := Split 64 (header.take (header.length - 1))
    if inputHeader.length < 2 then none
    else
      let network := if inputHeader.getD 0 [] = ascii "udp" then ascii "udp" else ascii "tcp"
      let address := Replace 36 58 (inputHeader.getD 1 [])
      some (network, address)

/-- The loop `for _, ip := range ips` of `handleRequest`, threading `blockFlag`. -/
def lookupLoop (trackers : List (GoString × Bool)) : List IP → Bool → Bool
  | [], blockFlag => blockFlag
  | ip :: rest, blockFlag =>
    match To4 ip with
    | some ipv4 =>
      if checkIfDestinationIsBlocked trackers (IP.String ipv4) then lookupLoop trackers rest true
      else lookupLoop trackers rest blockFlag
    | none => lookupLoop trackers rest blockFlag

/-- Lines 252-267 of `handleRequest`: the value of `blockFlag` for host `dh`. -/
def blockFlag (trackers : List (GoString × Bool)) (w : World) (dh : GoString) : Bool :=
  match ParseIP dh with
  | some _ => if checkIfDestinationIsBlocked trackers dh then true else false
  | none => lookupLoop trackers (w.lookupIP dh) false

/-- Lines 252-267 of `handleRequest`: the effects of computing `blockFlag`. -/
def gateEvents (dh : GoString) : List Event :=
  match ParseIP dh with
  | some _ => []
  | none => [Event.lookupIP dh]

/-- Lines 247-250 of `handleRequest` behind the policy guard: the host `dh` the
handler splits off the decoded address, when it gets that far. -/
def targetHost (stream : List Nat) : Option GoString :=
  match decodeHeader stream with
  | none => none
  | some (_, address) =>
    if Contains address tempMail then none
    else (SplitHostPort address).map Prod.fst

/-- The method `Client.handleRequest` on an inbound connection that delivers
`stream` and then ends: the trace of its effects. -/
def handleRequest (trackers : List (GoString × Bool)) (w : World) (stream : List Nat) :
    List Event :=
  Event.readHeader ::
  match decodeHeader stream with
  | none => [Event.closeInbound]
  | some (network, address) =>
    Event.headerParsed network address ::
    if Contains address tempMail then [Event.closeInbound]
    else
      match SplitHostPort address with
      | none => [Event.closeInbound]
      | some (dh, _) =>
        gateEvents dh ++ Event.gate (blockFlag trackers w dh) ::
        if blockFlag trackers w dh then [Event.logBlocked address, Event.closeInbound]
        else if network = ascii "udp" then [Event.tunnel address, Event.closeInbound]
        else
          Event.logDialing network address :: Event.dial network address (w.dial network address) ::
          if w.dial network address then
            [Event.goCopy, Event.copy, Event.closeRemote, Event.closeInbound]
          else [Event.logDialFailed, Event.closeInbound]

/-! ## `Server.Run` -/

/-- One result of `listener.Accept()`: an error, or a connection with its
`RemoteAddr().String()` and the bytes it will deliver. -/
inductive Accepted where
  | error
  | conn (remoteAddr : GoString) (stream : List Nat)
deriving DecidableEq, Repr

/-- Effects of `Server.Run`; connections are numbered in the order accepted. -/
inductive ServerEvent where
  /-- The call `log.Fatal(err)`: the process exits. -/
  | fatal
  /-- The log line "unable to parse host". -/
  | logUnparsed (c : Nat)
  /-- The log line "request from unacceptable source blocked". -/
  | logSourceBlocked (c : Nat)
  /-- The acceptor's `conn.Close()`. -/
  | close (c : Nat)
  /-- The statement `go client.handleRequest()`. -/
  | dispatch (c : Nat)
  /-- An effect of the handler dispatched for connection `c`. -/
  | session (c : Nat) (e : Event)
deriving DecidableEq, Repr

/-- The body of the acceptor loop for connection number `c` (lines 205-221);
the handler's effects are listed right after its dispatch. -/
def acceptOne (ranges : List IPNet) (trackers : List (GoString × Bool)) (w : World)
    (c : Nat) (remoteAddr : GoString) (stream : List Nat) : List ServerEvent :=
  match SplitHostPort remoteAddr with
  | none => [ServerEvent.logUnparsed c, ServerEvent.close c]
  | some (sh, _) =>
    if ¬ checkIfSourceIsAllowed ranges sh then [ServerEvent.logSourceBlocked c, ServerEvent.close c]
    else ServerEvent.dispatch c :: (handleRequest trackers w stream).map (ServerEvent.session c)

/-- The acceptor loop of `Server.Run` (lines 199-222) over the successive
results of `Accept`, starting at connection number `c`. -/
def runLoop (ranges : List IPNet) (trackers : List (GoString × Bool)) (w : World) :
    Nat → List Accepted → List ServerEvent
  | _, [] => []
  | _, Accepted.error :: _ => [ServerEvent.fatal]
  | c, Accepted.conn remoteAddr stream :: rest =>
    acceptOne ranges trackers w c remoteAddr stream ++ runLoop ranges trackers w (c + 1) rest

/-- The method `Server.Run`: `listenOk` is whether `net.Listen` succeeded. -/
def Run (ranges : List IPNet) (trackers : List (GoString × Bool)) (w : World)
    (listenOk : Bool) (accepts : List Accepted) : List ServerEvent :=
  if ¬ listenOk then [ServerEvent.fatal]
  else runLoop ranges trackers w 0 accepts

/-! ## Vocabulary of the claims -/

/-- The header of an input stream in the words of the specification: the bytes
before the first byte 13, or before the end of the stream. -/
def headerText (stream : List Nat) : GoString := stream.takeWhile (· ≠ 13)

/-- A call of `net.Dial`. -/
def Event.isDial : Event → Bool
  | Event.dial _ _ _ => true
  | _ => false

/-- A call of `handleUDPOverTCP`. -/
def Event.isTunnel : Event → Bool
  | Event.tunnel _ => true
  | _ => false

/-- A DNS resolution. -/
def Event.isLookup : Event → Bool
  | Event.lookupIP _ => true
  | _ => false

/-- A copy between the two connections. -/
def Event.isCopy : Event → Bool
  | Event.goCopy => true
  | Event.copy => true
  | _ => false

/-- A world in which no name resolves and every dial succeeds. -/
def quietWorld : World := ⟨fun _ => [], fun _ _ => true⟩

/-- An effect that can write bytes to the inbound connection: the copy
`Copy(rConn, client.conn)`, and the tunnel, which is handed `client.conn`. -/
def Event.writesInbound : Event → Bool
  | Event.copy => true
  | Event.tunnel _ => true
  | _ => false

/-- The connection an effect of `Server.Run` is about. -/
def ServerEvent.conn? : ServerEvent → Option Nat
  | ServerEvent.fatal => none
  | ServerEvent.logUnparsed c => some c
  | ServerEvent.logSourceBlocked c => some c
  | ServerEvent.close c => some c
  | ServerEvent.dispatch c => some c
  | ServerEvent.session c _ => some c

/-- The effects of the handler dispatched for connection `c`, in order. -/
def sessionOf (c : Nat) : List ServerEvent → List Event
  | [] => []
  | ServerEvent.session c1 e :: rest =>
    if c1 = c then e :: sessionOf c rest else sessionOf c rest
  | _ :: rest => sessionOf c rest

/-- The number a big-endian byte string denotes. -/
def beValue : List Nat → Nat
  | [] => 0
  | b :: t => b * 256 ^ t.length + beValue t

/-- In the words of CIDR notation: the address `x` lies inside the prefix with
network number `nn` and `ones` leading bits when both have the same width
and agree on their first `ones` bits. -/
def liesInside (nn : List Nat) (ones : Nat) (x : List Nat) : Prop :=
  x.length = nn.length ∧
    beValue x / 2 ^ (8 * nn.length - ones) = beValue nn / 2 ^ (8 * nn.length - ones)

instance (nn : List Nat) (ones : Nat) (x : List Nat) : Decidable (liesInside nn ones x) := by
  unfold liesInside
  infer_instance

/-- The entries of `cfRanges` as network number and prefix length. -/
def cfPrefixes : List (List Nat × Nat) :=
  [([127, 0, 0, 0], 8),
   ([103, 21, 244, 0], 22),
   ([103, 22, 200, 0], 22),
   ([103, 31, 4, 0], 22),
   ([104, 16, 0, 0], 12),
   ([108, 162, 192, 0], 18),
   ([131, 0, 72, 0], 22),
   ([141, 101, 64, 0], 18),
   ([162, 158, 0, 0], 15),
   ([172, 64, 0, 0], 13),
   ([173, 245, 48, 0], 20),
   ([188, 114, 96, 0], 20),
   ([190, 93, 240, 0], 20),
   ([197, 234, 240, 0], 22),
   ([198, 41, 128, 0], 17),
   ([0, 0, 0, 0, 0, 0, 0, 0, 0, 0, 0, 0, 0, 0, 0, 1], 128),
   ([36, 0, 203, 0, 0, 0, 0, 0, 0, 0, 0, 0, 0, 0, 0, 0], 32),
   ([36, 5, 129, 0, 0, 0, 0, 0, 0, 0, 0, 0, 0, 0, 0, 0], 32),
   ([36, 5, 181, 0, 0, 0, 0, 0, 0, 0, 0, 0, 0, 0, 0, 0], 32),
   ([38, 6, 71, 0, 0, 0, 0, 0, 0, 0, 0, 0, 0, 0, 0, 0], 32),
   ([40, 3, 248, 0, 0, 0, 0, 0, 0, 0, 0, 0, 0, 0, 0, 0], 32),
   ([44, 15, 242, 72, 0, 0, 0, 0, 0, 0, 0, 0, 0, 0, 0, 0], 32),
   ([42, 6, 152, 192, 0, 0, 0, 0, 0, 0, 0, 0, 0, 0, 0, 0], 29)]

/-- The dotted-decimal text of the IPv4 address `a.b.c.d`. -/
def dottedDecimal (a b c d : Nat) : GoString :=
  ascii (toString a ++ "." ++ toString b ++ "." ++ toString c ++ "." ++ toString d)

/-- A world whose resolver knows three names: `tracker.example` has an IPv6
address and the IPv4 address of a tracker, `mapped.example` has the address of
a tracker in 16-byte form, `example.com` has an IPv6 and an IPv4 address
outside the blocked set; every dial succeeds. -/
def trackerWorld : World :=
  ⟨fun host =>
      if host = ascii "tracker.example" then
        [[32, 1, 13, 184, 0, 0, 0, 0, 0, 0, 0, 0, 0, 0, 0, 1], [93, 158, 213, 92]]
      else if host = ascii "mapped.example" then
        [[0, 0, 0, 0, 0, 0, 0, 0, 0, 0, 255, 255, 185, 243, 218, 213]]
      else if host = ascii "example.com" then
        [[38, 6, 40, 0, 2, 32, 0, 1, 2, 72, 24, 147, 37, 200, 25, 70], [93, 184, 216, 34]]
      else [],
    fun _ _ => true⟩

/-! ## Lemmas on the string functions -/

theorem ReadBytes_append (d : Nat) (a rest : List Nat) (h : d ∉ a) :
    ReadBytes d (a ++ d :: rest) = (a ++ [d], false) := by
  induction a with
  | nil => simp [ReadBytes]
  | cons b t ih =>
    have hb : b ≠ d := fun e => h (by simp [e])
    have ht : d ∉ t := fun e => h (by simp [e])
    simp [ReadBytes, hb, ih ht]

theorem ReadBytes_of_not_mem (d : Nat) (s : List Nat) (h : d ∉ s) :
    ReadBytes d s = (s, true) := by
  induction s with
  | nil => simp [ReadBytes]
  | cons b t ih =>
    have hb : b ≠ d := fun e => h (by simp [e])
    have ht : d ∉ t := fun e => h (by simp [e])
    simp [ReadBytes, hb, ih ht]

theorem ReadBytes_cases (d : Nat) (s : List Nat) :
    (ReadBytes d s).1 = s.takeWhile (· ≠ d) ++ [d] ∨ (ReadBytes d s).1 = s.takeWhile (· ≠ d) := by
  induction s with
  | nil => simp [ReadBytes]
  | cons b t ih =>
    by_cases hb : b = d
    · simp [ReadBytes, hb]
    · rcases ih with ih | ih <;> simp [ReadBytes, hb, ih]

theorem Split_of_not_mem (sep : Nat) (s : GoString) (h : sep ∉ s) : Split sep s = [s] := by
  induction s with
  | nil => simp [Split]
  | cons b t ih =>
    have hb : b ≠ sep := fun e => h (by simp [e])
    have ht : sep ∉ t := fun e => h (by simp [e])
    simp [Split, hb, ih ht]

theorem Split_append (sep : Nat) (a b : GoString) (h : sep ∉ a) :
    Split sep (a ++ sep :: b) = a :: Split sep b := by
  induction a with
  | nil => simp [Split]
  | cons c t ih =>
    have hc : c ≠ sep := fun e => h (by simp [e])
    have ht : sep ∉ t := fun e => h (by simp [e])
    simp [Split, hc, ih ht]

theorem Split_length_pos (sep : Nat) (s : GoString) : 0 < (Split sep s).length := by
  induction s with
  | nil => simp [Split]
  | cons b t ih =>
    by_cases hb : b = sep
    · simp [Split, hb]
    · cases hs : Split sep t with
      | nil => simp [hs] at ih
      | cons f fs => simp [Split, hb, hs]

theorem Split_length_lt_two (sep : Nat) (s : GoString) :
    (Split sep s).length < 2 ↔ sep ∉ s := by
  constructor
  · intro hlen hmem
    obtain ⟨a, b, rfl⟩ := List.append_of_mem hmem
    induction a with
    | nil =>
      have := Split_length_pos sep b
      simp [Split] at hlen
      omega
    | cons c t ih =>
      by_cases hc : c = sep
      · have := Split_length_pos sep (t ++ sep :: b)
        simp [Split, hc] at hlen
        omega
      · apply ih
        · cases hs : Split sep (t ++ sep :: b) with
          | nil => simp
          | cons f fs => simpa [Split, hc, hs] using hlen
        · simp
  · intro h
    simp [Split_of_not_mem sep s h]

theorem Replace_eq_map (old new : Nat) (s : GoString) :
    Replace old new s = s.map (fun b => if b = old then new else b) := by
  induction s with
  | nil => rfl
  | cons b t ih => simp [Replace, ih]

theorem Replace_not_mem (old new : Nat) (s : GoString) (h : old ≠ new) :
    old ∉ Replace old new s := by
  induction s with
  | nil => simp [Replace]
  | cons b t ih =>
    by_cases hb : b = old
    · simp [Replace, hb, h, ih]
    · simp [Replace, hb, ih, Ne.symm hb]

theorem Contains_iff (s sub : GoString) :
    Contains s sub = true ↔ ∃ pre post, s = pre ++ sub ++ post := by
  induction s with
  | nil =>
    simp only [Contains, List.isEmpty_iff]
    constructor
    · rintro rfl
      exact ⟨[], [], rfl⟩
    · rintro ⟨pre, post, h⟩
      have := congrArg List.length h
      simp only [List.length_nil, List.length_append] at this
      exact List.length_eq_zero.mp (by omega)
  | cons b t ih =>
    simp only [Contains, Bool.or_eq_true, ih, List.isPrefixOf_iff_prefix]
    constructor
    · rintro (⟨post, h⟩ | ⟨pre, post, h⟩)
      · exact ⟨[], post, by simp [h]⟩
      · exact ⟨b :: pre, post, by simp [h]⟩
    · rintro ⟨pre, post, h⟩
      cases pre with
      | nil => exact Or.inl ⟨post, by simpa using h.symm⟩
      | cons c pre =>
        simp only [List.cons_append, List.cons.injEq] at h
        exact Or.inr ⟨pre, post, h.2⟩

/-! ## The paths of `handleRequest` -/

theorem gateEvents_cases (dh : GoString) :
    (ParseIP dh ≠ none ∧ gateEvents dh = []) ∨
      (ParseIP dh = none ∧ gateEvents dh = [Event.lookupIP dh]) := by
  unfold gateEvents
  cases hp : ParseIP dh <;> simp

/-- The handler takes exactly one of seven paths; each fixes the trace. -/
theorem handleRequest_cases (trackers : List (GoString × Bool)) (w : World) (stream : List Nat) :
    (decodeHeader stream = none ∧
        handleRequest trackers w stream = [Event.readHeader, Event.closeInbound]) ∨
    ∃ network address, decodeHeader stream = some (network, address) ∧
      ((Contains address tempMail = true ∧
          handleRequest trackers w stream =
            [Event.readHeader, Event.headerParsed network address, Event.closeInbound]) ∨
       (Contains address tempMail = false ∧ SplitHostPort address = none ∧
          handleRequest trackers w stream =
            [Event.readHeader, Event.headerParsed network address, Event.closeInbound]) ∨
       ∃ dh port, Contains address tempMail = false ∧ SplitHostPort address = some (dh, port) ∧
         ((blockFlag trackers w dh = true ∧
            handleRequest trackers w stream =
              Event.readHeader :: Event.headerParsed network address :: (gateEvents dh ++
                [Event.gate true, Event.logBlocked address, Event.closeInbound])) ∨
          (blockFlag trackers w dh = false ∧ network = ascii "udp" ∧
            handleRequest trackers w stream =
              Event.readHeader :: Event.headerParsed network address :: (gateEvents dh ++
                [Event.gate false, Event.tunnel address, Event.closeInbound])) ∨
          (blockFlag trackers w dh = false ∧ network ≠ ascii "udp" ∧
            w.dial network address = true ∧
            handleRequest trackers w stream =
              Event.readHeader :: Event.headerParsed network address :: (gateEvents dh ++
                [Event.gate false, Event.logDialing network address,
                  Event.dial network address true, Event.goCopy, Event.copy,
                  Event.closeRemote, Event.closeInbound])) ∨
          (blockFlag trackers w dh = false ∧ network ≠ ascii "udp" ∧
            w.dial network address = false ∧
            handleRequest trackers w stream =
              Event.readHeader :: Event.headerParsed network address :: (gateEvents dh ++
                [Event.gate false, Event.logDialing network address,
                  Event.dial network address false, Event.logDialFailed,
                  Event.closeInbound])))) := by
  cases hdec : decodeHeader stream with
  | none => left; simp [handleRequest, hdec]
  | some p =>
    obtain ⟨network, address⟩ := p
    right
    refine ⟨network, address, rfl, ?_⟩
    cases hc : Contains address tempMail with
    | true => left; simp [handleRequest, hdec, hc]
    | false =>
      right
      cases hs : SplitHostPort address with
      | none => left; simp [handleRequest, hdec, hc, hs]
      | some q =>
        obtain ⟨dh, port⟩ := q
        right
        refine ⟨dh, port, rfl, rfl, ?_⟩
        cases hb : blockFlag trackers w dh with
        | true => left; simp [handleRequest, hdec, hc, hs, hb]
        | false =>
          right
          by_cases hu : network = ascii "udp"
          · left; simp [handleRequest, hdec, hc, hs, hb, hu]
          · right
            cases hd : w.dial network address with
            | true => left; simp [handleRequest, hdec, hc, hs, hb, hu, hd]
            | false => right; simp [handleRequest, hdec, hc, hs, hb, hu, hd]

/-- Every dial or tunnel call of the handler is made with the decoded network and address. -/
theorem handleRequest_target (trackers : List (GoString × Bool)) (w : World)
    (stream : List Nat) (network address : GoString)
    (hdec : decodeHeader stream = some (network, address)) (e : Event)
    (he : e ∈ handleRequest trackers w stream) :
    (∀ n a ok, e = Event.dial n a ok → n = network ∧ a = address) ∧
      (∀ a, e = Event.tunnel a → a = address) := by
  rcases handleRequest_cases trackers w stream with ⟨h, _⟩ | ⟨n, a, h, hc⟩
  · simp [hdec] at h
  · rw [hdec] at h
    obtain ⟨rfl, rfl⟩ : network = n ∧ address = a := by simpa using h
    have key : ∀ t : List Event, handleRequest trackers w stream = t →
        (∀ n a ok, Event.dial n a ok ∈ t → n = network ∧ a = address) →
        (∀ a, Event.tunnel a ∈ t → a = address) →
        (∀ n a ok, e = Event.dial n a ok → n = network ∧ a = address) ∧
          (∀ a, e = Event.tunnel a → a = address) := by
      intro t ht h1 h2
      rw [ht] at he
      exact ⟨fun n a ok hd => h1 n a ok (hd ▸ he), fun a hd => h2 a (hd ▸ he)⟩
    rcases hc with ⟨_, ht⟩ | ⟨_, _, ht⟩ | ⟨dh, port, _, _, hc⟩
    · exact key _ ht (by simp) (by simp)
    · exact key _ ht (by simp) (by simp)
    · rcases gateEvents_cases dh with ⟨_, hg⟩ | ⟨_, hg⟩ <;>
        rcases hc with ⟨_, ht⟩ | ⟨_, _, ht⟩ | ⟨_, _, _, ht⟩ | ⟨_, _, _, ht⟩ <;>
        rw [hg] at ht <;>
        refine key _ ht ?_ ?_ <;> simp

/-! ## The address functions -/

/-- Eight iterations are enough for the loop of `parseIPv6`: once `i` plus
twice the remaining count reaches 16, a larger count never changes the result. -/
theorem parseIPv6Loop_fuel (fuel : Nat) :
    ∀ (s : GoString) (ip : List Nat) (i : Nat) (ell : Option Nat), 16 ≤ i + 2 * fuel →
      ∀ k, parseIPv6Loop (fuel + k) s ip i ell = parseIPv6Loop fuel s ip i ell := by
  induction fuel with
  | zero =>
    intro s ip i ell h k
    cases k with
    | zero => rfl
    | succ k =>
      have hi : ¬ i < 16 := by omega
      simp [parseIPv6Loop, hi]
  | succ fuel ih =>
    intro s ip i ell h k
    have hk : fuel + 1 + k = (fuel + k) + 1 := by omega
    have ih1 := fun s ip ell => ih s ip (i + 2) ell (by omega) k
    rw [hk]
    simp only [parseIPv6Loop, ih1]

/-- From `i = 0` the loop of `parseIPv6` never needs a ninth iteration. -/
theorem parseIPv6Loop_eight (k : Nat) (s : GoString) (ip : List Nat) (ell : Option Nat) :
    parseIPv6Loop (8 + k) s ip 0 ell = parseIPv6Loop 8 s ip 0 ell :=
  parseIPv6Loop_fuel 8 s ip 0 ell (by omega) k

/-- The parser `net.ParseIP` on addresses of both families and on strings it rejects. -/
theorem ParseIP_examples :
    ParseIP (ascii "93.184.216.34") =
        some [0, 0, 0, 0, 0, 0, 0, 0, 0, 0, 255, 255, 93, 184, 216, 34] ∧
      ParseIP (ascii "::ffff:93.184.216.34") =
        some [0, 0, 0, 0, 0, 0, 0, 0, 0, 0, 255, 255, 93, 184, 216, 34] ∧
      ParseIP (ascii "2606:4700::1111") =
        some [38, 6, 71, 0, 0, 0, 0, 0, 0, 0, 0, 0, 0, 0, 17, 17] ∧
      ParseIP (ascii "1:2:3:4:5:6:7:8") =
        some [0, 1, 0, 2, 0, 3, 0, 4, 0, 5, 0, 6, 0, 7, 0, 8] ∧
      ParseIP (ascii "::") = some [0, 0, 0, 0, 0, 0, 0, 0, 0, 0, 0, 0, 0, 0, 0, 0] ∧
      ParseIP (ascii "093.184.216.34") = none ∧
      ParseIP (ascii "93.184.216") = none ∧
      ParseIP (ascii "93.184.216.256") = none ∧
      ParseIP (ascii "1:2:3:4:5:6:7:8:9") = none ∧
      ParseIP (ascii "1::2::3") = none ∧
      ParseIP (ascii "12345::") = none ∧
      ParseIP (ascii "fe80::1%eth0") = none ∧
      ParseIP (ascii "example.com") = none ∧
      ParseIP (ascii "") = none := by
  decide

/-- The function `net.SplitHostPort` on well-formed and malformed addresses. -/
theorem SplitHostPort_examples :
    SplitHostPort (ascii "93.184.216.34:80") = some (ascii "93.184.216.34", ascii "80") ∧
      SplitHostPort (ascii "example.com:53") = some (ascii "example.com", ascii "53") ∧
      SplitHostPort (ascii "[2606:4700::1111]:443") = some (ascii "2606:4700::1111", ascii "443") ∧
      SplitHostPort (ascii ":80") = some ([], ascii "80") ∧
      SplitHostPort (ascii "example.com") = none ∧
      SplitHostPort (ascii "2606:4700::1111:443") = none ∧
      SplitHostPort (ascii "[2606:4700::1111]") = none ∧
      SplitHostPort (ascii "[::1]x:80") = none ∧
      SplitHostPort (ascii "a[b:80") = none ∧
      SplitHostPort (ascii "") = none := by
  decide

/-- The prefixes `init` loads: the first IPv4 and the last IPv6 entry of `cfRanges`. -/
theorem ipRange_examples :
    ipRange.head? = some ⟨[127, 0, 0, 0], [255, 0, 0, 0]⟩ ∧
      ipRange.getLast? =
        some ⟨[42, 6, 152, 192, 0, 0, 0, 0, 0, 0, 0, 0, 0, 0, 0, 0],
          [255, 255, 255, 248, 0, 0, 0, 0, 0, 0, 0, 0, 0, 0, 0, 0]⟩ := by
  decide

/-! ## The header: claims C2, C5 and C6 -/

theorem decodeHeader_of_delimited (text rest : GoString) (h : 13 ∉ text) :
    decodeHeader (text ++ 13 :: rest) =
      if (Split 64 text).length < 2 then none
      else some (if (Split 64 text).getD 0 [] = ascii "udp" then ascii "udp" else ascii "tcp",
        Replace 36 58 ((Split 64 text).getD 1 [])) := by
  simp [decodeHeader, ReadBytes_append 13 text rest h]

theorem decodeHeader_of_eof (text : GoString) (h : 13 ∉ text) :
    decodeHeader text =
      if text.length < 1 then none
      else if (Split 64 text.dropLast).length < 2 then none
      else some (if (Split 64 text.dropLast).getD 0 [] = ascii "udp" then ascii "udp"
          else ascii "tcp",
        Replace 36 58 ((Split 64 text.dropLast).getD 1 [])) := by
  simp [decodeHeader, ReadBytes_of_not_mem 13 text h, List.dropLast_eq_take]

/-- C2. A well-formed header line `f0@f1` followed by byte 13 decodes to
transport udp exactly when `f0` is "udp" (tcp otherwise) and to the address
`f1` with every `$` replaced by `:`, which contains no `$`; every dial or
tunnel call of the handler carries this address. -/
theorem handleRequest_decodes_header (f0 f1 rest : GoString)
    (h0 : 64 ∉ f0 ∧ 13 ∉ f0) (h1 : 64 ∉ f1 ∧ 13 ∉ f1) :
    decodeHeader (f0 ++ [64] ++ f1 ++ [13] ++ rest) =
        some (if f0 = ascii "udp" then ascii "udp" else ascii "tcp",
          f1.map (fun b => if b = 36 then 58 else b)) ∧
      36 ∉ f1.map (fun b => if b = 36 then 58 else b) ∧
      ∀ (trackers : List (GoString × Bool)) (w : World) (e : Event),
        e ∈ handleRequest trackers w (f0 ++ [64] ++ f1 ++ [13] ++ rest) →
        (∀ n a ok, e = Event.dial n a ok → a = f1.map (fun b => if b = 36 then 58 else b)) ∧
        (∀ a, e = Event.tunnel a → a = f1.map (fun b => if b = 36 then 58 else b)) := by
  have htext : (13 : Nat) ∉ f0 ++ 64 :: f1 := by simp [h0.2, h1.2]
  have hdec : decodeHeader (f0 ++ [64] ++ f1 ++ [13] ++ rest) =
      some (if f0 = ascii "udp" then ascii "udp" else ascii "tcp",
        f1.map (fun b => if b = 36 then 58 else b)) := by
    have := decodeHeader_of_delimited (f0 ++ 64 :: f1) rest htext
    simp only [Split_append 64 f0 f1 h0.1, Split_of_not_mem 64 f1 h1.1] at this
    simpa [Replace_eq_map] using this
  refine ⟨hdec, ?_, ?_⟩
  · rw [← Replace_eq_map]
    exact Replace_not_mem 36 58 f1 (by decide)
  · intro trackers w e he
    have := handleRequest_target trackers w _ _ _ hdec e he
    exact ⟨fun n a ok hd => (this.1 n a ok hd).2, this.2⟩

/-- The two headers of the specification decode as it says. -/
theorem handleRequest_decodes_header_witness :
    decodeHeader (ascii "tcp" ++ [64] ++ ascii "93.184.216.34$80" ++ [13] ++ []) =
        some (ascii "tcp", ascii "93.184.216.34:80") ∧
      decodeHeader (ascii "udp" ++ [64] ++ ascii "example.com$53" ++ [13] ++ []) =
        some (ascii "udp", ascii "example.com:53") :=
  ⟨(handleRequest_decodes_header (ascii "tcp") (ascii "93.184.216.34$80") []
      (by decide) (by decide)).1,
   (handleRequest_decodes_header (ascii "udp") (ascii "example.com$53") []
      (by decide) (by decide)).1⟩

/-- C5. When the decoded target address contains `temp-mail.org` the handler
returns right after the guard: its whole trace is the header read, the decode
marker and the close, so there is no resolution, dial or tunnel, whatever the
blocked set, the world and the transport. -/
theorem handleRequest_rejects_tempMail (trackers : List (GoString × Bool)) (w : World)
    (stream : List Nat) (network address : GoString)
    (hdec : decodeHeader stream = some (network, address))
    (hsub : ∃ pre post, address = pre ++ ascii "temp-mail.org" ++ post) :
    handleRequest trackers w stream =
        [Event.readHeader, Event.headerParsed network address, Event.closeInbound] ∧
      ∀ e ∈ handleRequest trackers w stream,
        e.isLookup = false ∧ e.isDial = false ∧ e.isTunnel = false := by
  have hc : Contains address tempMail = true := (Contains_iff address tempMail).2 hsub
  have ht : handleRequest trackers w stream =
      [Event.readHeader, Event.headerParsed network address, Event.closeInbound] := by
    simp [handleRequest, hdec, hc]
  refine ⟨ht, ?_⟩
  rw [ht]
  simp [Event.isLookup, Event.isDial, Event.isTunnel]

/-- A udp request for `mx.temp-mail.org` is rejected by the guard. -/
theorem handleRequest_rejects_tempMail_witness :
    decodeHeader (ascii "udp@mx.temp-mail.org$25\r") =
        some (ascii "udp", ascii "mx.temp-mail.org:25") ∧
      handleRequest torrentTrackers quietWorld (ascii "udp@mx.temp-mail.org$25\r") =
        [Event.readHeader, Event.headerParsed (ascii "udp") (ascii "mx.temp-mail.org:25"),
          Event.closeInbound] :=
  ⟨by decide, (handleRequest_rejects_tempMail torrentTrackers quietWorld
      (ascii "udp@mx.temp-mail.org$25\r") (ascii "udp") (ascii "mx.temp-mail.org:25")
      (by decide) ⟨ascii "mx.", ascii ":25", by decide⟩).1⟩

theorem decodeHeader_none_of_no_at (stream : List Nat) (h : 64 ∉ headerText stream) :
    decodeHeader stream = none := by
  unfold headerText at h
  unfold decodeHeader
  rcases ReadBytes_cases 13 stream with hr | hr
  · generalize List.takeWhile (· ≠ 13) stream = t at h hr
    simp only [hr]
    have ht : (t ++ [13]).take ((t ++ [13]).length - 1) = t := by simp
    rw [ht, Split_of_not_mem 64 t h]
    simp
  · generalize List.takeWhile (· ≠ 13) stream = t at h hr
    simp only [hr]
    have hd : 64 ∉ t.take (t.length - 1) := fun hm => h (List.mem_of_mem_take hm)
    rw [Split_of_not_mem 64 _ hd]
    simp

/-- C6. When the header (the bytes before the first byte 13 or before the end
of the stream) is empty, splits on `@` into fewer than two fields, or holds no
`@`, the handler only reads the header and closes the inbound connection: no
resolution, no dial, no tunnel. -/
theorem handleRequest_malformed_header (trackers : List (GoString × Bool)) (w : World)
    (stream : List Nat)
    (h : headerText stream = [] ∨ (Split 64 (headerText stream)).length < 2 ∨
      64 ∉ headerText stream) :
    handleRequest trackers w stream = [Event.readHeader, Event.closeInbound] := by
  have hno : 64 ∉ headerText stream := by
    rcases h with h | h | h
    · simp [h]
    · exact (Split_length_lt_two 64 _).1 h
    · exact h
  simp [handleRequest, decodeHeader_none_of_no_at stream hno]

/-- The immediate delimiter, the immediate end of stream and a header without `@`. -/
theorem handleRequest_malformed_header_witness :
    handleRequest torrentTrackers quietWorld (ascii "\rtcp@1.1.1.1$80\r") =
        [Event.readHeader, Event.closeInbound] ∧
      handleRequest torrentTrackers quietWorld [] = [Event.readHeader, Event.closeInbound] ∧
      handleRequest torrentTrackers quietWorld (ascii "tcp 1.1.1.1$80\r") =
        [Event.readHeader, Event.closeInbound] :=
  ⟨handleRequest_malformed_header torrentTrackers quietWorld (ascii "\rtcp@1.1.1.1$80\r")
      (Or.inl (by decide)),
   handleRequest_malformed_header torrentTrackers quietWorld [] (Or.inl (by decide)),
   handleRequest_malformed_header torrentTrackers quietWorld (ascii "tcp 1.1.1.1$80\r")
      (Or.inr (Or.inl (by decide)))⟩

/-! ## Failure paths and ordering: claims C8 and C9 -/

/-- C8. On every admission-failure path (the header does not decode, the
address contains `temp-mail.org`, the address does not split into host and
port, the destination is blocked) no effect of the handler writes to the
inbound connection, nothing is dialed or copied, the header is read once, and
the inbound connection is closed exactly once, as the last effect. -/
theorem handleRequest_admission_failure (trackers : List (GoString × Bool)) (w : World)
    (stream : List Nat)
    (hfail : decodeHeader stream = none ∨
      ∃ network address, decodeHeader stream = some (network, address) ∧
        (Contains address tempMail = true ∨ SplitHostPort address = none ∨
          ∃ dh port, SplitHostPort address = some (dh, port) ∧
            blockFlag trackers w dh = true)) :
    (∀ e ∈ handleRequest trackers w stream,
        e.writesInbound = false ∧ e.isCopy = false ∧ e.isDial = false ∧ e.isTunnel = false) ∧
      (handleRequest trackers w stream).count Event.closeInbound = 1 ∧
      (handleRequest trackers w stream).getLast? = some Event.closeInbound ∧
      (handleRequest trackers w stream).count Event.readHeader = 1 := by
  have key : ∀ t : List Event, handleRequest trackers w stream = t →
      ((∀ e ∈ t, e.writesInbound = false ∧ e.isCopy = false ∧ e.isDial = false ∧
          e.isTunnel = false) ∧
        t.count Event.closeInbound = 1 ∧ t.getLast? = some Event.closeInbound ∧
        t.count Event.readHeader = 1) →
      ((∀ e ∈ handleRequest trackers w stream,
          e.writesInbound = false ∧ e.isCopy = false ∧ e.isDial = false ∧ e.isTunnel = false) ∧
        (handleRequest trackers w stream).count Event.closeInbound = 1 ∧
        (handleRequest trackers w stream).getLast? = some Event.closeInbound ∧
        (handleRequest trackers w stream).count Event.readHeader = 1) := by
    intro t ht h
    rw [ht]
    exact h
  rcases handleRequest_cases trackers w stream with ⟨_, ht⟩ | ⟨n, a, hd, hc⟩
  · exact key _ ht (by simp [Event.writesInbound, Event.isCopy, Event.isDial, Event.isTunnel])
  · rcases hc with ⟨_, ht⟩ | ⟨_, _, ht⟩ | ⟨dh, port, hcont, hsplit, hc⟩
    · exact key _ ht (by simp [Event.writesInbound, Event.isCopy, Event.isDial, Event.isTunnel])
    · exact key _ ht (by simp [Event.writesInbound, Event.isCopy, Event.isDial, Event.isTunnel])
    · have hblocked : blockFlag trackers w dh = true := by
        rcases hfail with h | ⟨n1, a1, hd1, h⟩
        · simp [hd] at h
        · rw [hd] at hd1
          obtain ⟨rfl, rfl⟩ : n = n1 ∧ a = a1 := by simpa using hd1
          rcases h with h | h | ⟨dh1, port1, hs1, hb⟩
          · simp [hcont] at h
          · simp [hsplit] at h
          · rw [hsplit] at hs1
            obtain ⟨rfl, rfl⟩ : dh = dh1 ∧ port = port1 := by simpa using hs1
            exact hb
      rcases hc with ⟨_, ht⟩ | ⟨hb, _⟩ | ⟨hb, _⟩ | ⟨hb, _⟩
      · rcases gateEvents_cases dh with ⟨_, hg⟩ | ⟨_, hg⟩ <;> rw [hg] at ht <;>
          exact key _ ht
            (by simp [Event.writesInbound, Event.isCopy, Event.isDial, Event.isTunnel])
      · simp [hblocked] at hb
      · simp [hblocked] at hb
      · simp [hblocked] at hb

/-- The failure paths on concrete requests: an empty header, a policy
rejection, an address without a port, and a blocked literal address. -/
theorem handleRequest_admission_failure_witness :
    (handleRequest torrentTrackers quietWorld (ascii "\r")).count Event.closeInbound = 1 ∧
      (handleRequest torrentTrackers quietWorld
        (ascii "tcp@temp-mail.org$80\r")).count Event.closeInbound = 1 ∧
      (handleRequest torrentTrackers quietWorld
        (ascii "tcp@example.com\r")).count Event.closeInbound = 1 ∧
      (handleRequest torrentTrackers quietWorld
        (ascii "tcp@93.158.213.92$6969\r")).count Event.closeInbound = 1 :=
  ⟨(handleRequest_admission_failure torrentTrackers quietWorld (ascii "\r")
      (Or.inl (by decide))).2.1,
   (handleRequest_admission_failure torrentTrackers quietWorld (ascii "tcp@temp-mail.org$80\r")
      (Or.inr ⟨ascii "tcp", ascii "temp-mail.org:80", by decide, Or.inl (by decide)⟩)).2.1,
   (handleRequest_admission_failure torrentTrackers quietWorld (ascii "tcp@example.com\r")
      (Or.inr ⟨ascii "tcp", ascii "example.com", by decide, Or.inr (Or.inl (by decide))⟩)).2.1,
   (handleRequest_admission_failure torrentTrackers quietWorld (ascii "tcp@93.158.213.92$6969\r")
      (Or.inr ⟨ascii "tcp", ascii "93.158.213.92:6969", by decide,
        Or.inr (Or.inr ⟨ascii "93.158.213.92", ascii "6969", by decide, by decide⟩)⟩)).2.1⟩

/-- C9. In every run of the handler: each dial or tunnel call comes after the
header read, the decode of the header and a gate decision "not blocked", in
this order; each gate decision comes after the header read and the decode; at
most one dial or tunnel call is made (so never a dial and a tunnel); and each
copy between the connections comes after a dial that succeeded. -/
theorem handleRequest_order (trackers : List (GoString × Bool)) (w : World)
    (stream : List Nat) :
    (∀ i e, (handleRequest trackers w stream).get? i = some e →
        (e.isDial = true ∨ e.isTunnel = true) →
        ∃ j k l n a, j < k ∧ k < l ∧ l < i ∧
          (handleRequest trackers w stream).get? j = some Event.readHeader ∧
          (handleRequest trackers w stream).get? k = some (Event.headerParsed n a) ∧
          (handleRequest trackers w stream).get? l = some (Event.gate false)) ∧
      (∀ i b, (handleRequest trackers w stream).get? i = some (Event.gate b) →
        ∃ j k n a, j < k ∧ k < i ∧
          (handleRequest trackers w stream).get? j = some Event.readHeader ∧
          (handleRequest trackers w stream).get? k = some (Event.headerParsed n a)) ∧
      ((handleRequest trackers w stream).filter
        (fun e => e.isDial || e.isTunnel)).length ≤ 1 ∧
      (∀ i e, (handleRequest trackers w stream).get? i = some e → e.isCopy = true →
        ∃ j n a, j < i ∧
          (handleRequest trackers w stream).get? j = some (Event.dial n a true) ∧
          w.dial n a = true) := by
  have hshape := handleRequest_cases trackers w stream
  generalize handleRequest trackers w stream = t at hshape
  have small : ∀ n a, t = [Event.readHeader, Event.headerParsed n a, Event.closeInbound] →
      (∀ i e, t.get? i = some e → (e.isDial = true ∨ e.isTunnel = true) →
        ∃ j k l n a, j < k ∧ k < l ∧ l < i ∧ t.get? j = some Event.readHeader ∧
          t.get? k = some (Event.headerParsed n a) ∧ t.get? l = some (Event.gate false)) ∧
      (∀ i b, t.get? i = some (Event.gate b) →
        ∃ j k n a, j < k ∧ k < i ∧ t.get? j = some Event.readHeader ∧
          t.get? k = some (Event.headerParsed n a)) ∧
      (t.filter (fun e => e.isDial || e.isTunnel)).length ≤ 1 ∧
      (∀ i e, t.get? i = some e → e.isCopy = true →
        ∃ j n a, j < i ∧ t.get? j = some (Event.dial n a true) ∧ w.dial n a = true) := by
    intro n a ht
    subst ht
    refine ⟨?_, ?_, by simp [Event.isDial, Event.isTunnel], ?_⟩
    · intro i e hi he
      rcases i with _ | _ | _ | i <;> simp at hi <;> subst hi <;>
        simp [Event.isDial, Event.isTunnel] at he
    · intro i b hi
      rcases i with _ | _ | _ | i <;> simp at hi
    · intro i e hi he
      rcases i with _ | _ | _ | i <;> simp at hi <;> subst hi <;> simp [Event.isCopy] at he
  rcases hshape with ⟨_, ht⟩ | ⟨n, a, hd, hc⟩
  · subst ht
    refine ⟨?_, ?_, by simp [Event.isDial, Event.isTunnel], ?_⟩
    · intro i e hi he
      rcases i with _ | _ | i <;> simp at hi <;> subst hi <;>
        simp [Event.isDial, Event.isTunnel] at he
    · intro i b hi
      rcases i with _ | _ | i <;> simp at hi
    · intro i e hi he
      rcases i with _ | _ | i <;> simp at hi <;> subst hi <;> simp [Event.isCopy] at he
  · rcases hc with ⟨_, ht⟩ | ⟨_, _, ht⟩ | ⟨dh, port, hcont, hsplit, hc⟩
    · exact small n a ht
    · exact small n a ht
    · rcases gateEvents_cases dh with ⟨_, hg⟩ | ⟨_, hg⟩ <;>
        rcases hc with ⟨_, ht⟩ | ⟨_, _, ht⟩ | ⟨_, _, hok, ht⟩ | ⟨_, _, _, ht⟩ <;>
        rw [hg] at ht <;> subst ht <;>
        refine ⟨?_, ?_, by simp [Event.isDial, Event.isTunnel], ?_⟩ <;>
        intro i e hi
      all_goals
        first
        | (intro he
           rcases i with _ | _ | _ | _ | _ | _ | _ | _ | _ | _ | _ | i <;> simp at hi <;>
             (try subst hi) <;>
             simp [Event.isDial, Event.isTunnel, Event.isCopy] at he <;>
             first
             | exact ⟨0, 1, 2, n, a, by omega, by omega, by omega, rfl, rfl, rfl⟩
             | exact ⟨0, 1, 3, n, a, by omega, by omega, by omega, rfl, rfl, rfl⟩
             | exact ⟨4, n, a, by omega, rfl, hok⟩
             | exact ⟨5, n, a, by omega, rfl, hok⟩)
        | (rcases i with _ | _ | _ | _ | _ | _ | _ | _ | _ | _ | _ | i <;> simp at hi
           all_goals exact ⟨0, 1, n, a, by omega, by omega, rfl, rfl⟩)

/-- A tcp request that is relayed: one dial, preceded by the read, the decode and the gate. -/
theorem handleRequest_order_witness :
    ((handleRequest torrentTrackers quietWorld (ascii "tcp@93.184.216.34$80\r")).filter
      (fun e => e.isDial || e.isTunnel)).length ≤ 1 :=
  (handleRequest_order torrentTrackers quietWorld (ascii "tcp@93.184.216.34$80\r")).2.2.1

/-! ## The destination gate: claims C3 and C4 -/

theorem mapIndex_iff_mem (m : List (GoString × Bool)) (hall : ∀ p ∈ m, p.2 = true)
    (k : GoString) : mapIndex m k = true ↔ k ∈ m.map Prod.fst := by
  unfold mapIndex
  induction m with
  | nil => simp
  | cons p rest ih =>
    obtain ⟨key, val⟩ := p
    have hval : val = true := hall (key, val) (by simp)
    have hrest : ∀ p ∈ rest, p.2 = true := fun p hp => hall p (by simp [hp])
    by_cases hk : k = key
    · subst hk
      simp [List.lookup, hval]
    · have hbeq : (k == key) = false := by simpa using hk
      simp only [List.lookup, hbeq, List.map_cons, List.mem_cons, hk, false_or]
      exact ih hrest

theorem torrentTrackers_all_true : ∀ p ∈ torrentTrackers, p.2 = true := by decide

theorem targetHost_eq_some (stream : List Nat) (dh : GoString)
    (h : targetHost stream = some dh) :
    ∃ network address port, decodeHeader stream = some (network, address) ∧
      Contains address tempMail = false ∧ SplitHostPort address = some (dh, port) := by
  unfold targetHost at h
  cases hdec : decodeHeader stream with
  | none => simp [hdec] at h
  | some p =>
    obtain ⟨network, address⟩ := p
    cases hc : Contains address tempMail with
    | true => simp [hdec, hc] at h
    | false =>
      cases hs : SplitHostPort address with
      | none => simp [hdec, hc, hs] at h
      | some q =>
        obtain ⟨host, port⟩ := q
        simp [hdec, hc, hs] at h
        subst h
        exact ⟨network, address, port, rfl, hc, hs⟩

/-- What the handler does once it has split the host `dh` off the address. -/
theorem handleRequest_of_targetHost (trackers : List (GoString × Bool)) (w : World)
    (stream : List Nat) (dh : GoString) (h : targetHost stream = some dh) :
    ∃ network address, decodeHeader stream = some (network, address) ∧
      handleRequest trackers w stream =
        Event.readHeader :: Event.headerParsed network address :: (gateEvents dh ++
          Event.gate (blockFlag trackers w dh) ::
          if blockFlag trackers w dh then [Event.logBlocked address, Event.closeInbound]
          else if network = ascii "udp" then [Event.tunnel address, Event.closeInbound]
          else
            Event.logDialing network address ::
              Event.dial network address (w.dial network address) ::
              if w.dial network address then
                [Event.goCopy, Event.copy, Event.closeRemote, Event.closeInbound]
              else [Event.logDialFailed, Event.closeInbound]) := by
  obtain ⟨network, address, port, hdec, hc, hs⟩ := targetHost_eq_some stream dh h
  exact ⟨network, address, hdec, by simp [handleRequest, hdec, hc, hs]⟩

theorem lookupLoop_true (trackers : List (GoString × Bool)) (ips : List IP) :
    lookupLoop trackers ips true = true := by
  induction ips with
  | nil => rfl
  | cons ip rest ih =>
    unfold lookupLoop
    cases To4 ip
    · simpa using ih
    · simp only [ih]
      split_ifs <;> rfl

theorem lookupLoop_false_iff (trackers : List (GoString × Bool)) (ips : List IP) :
    lookupLoop trackers ips false = true ↔
      ∃ ip ∈ ips, ∃ v4, To4 ip = some v4 ∧
        checkIfDestinationIsBlocked trackers (IP.String v4) = true := by
  induction ips with
  | nil => simp [lookupLoop]
  | cons ip rest ih =>
    unfold lookupLoop
    cases h4 : To4 ip with
    | none => simp [ih, h4]
    | some v4 =>
      by_cases hb : checkIfDestinationIsBlocked trackers (IP.String v4) = true
      · simp [hb, lookupLoop_true, h4]
      · simp [hb, ih, h4]

theorem lookupLoop_filter (trackers : List (GoString × Bool)) (ips : List IP) (flag : Bool) :
    lookupLoop trackers ips flag =
      lookupLoop trackers (ips.filter (fun ip => (To4 ip).isSome)) flag := by
  induction ips generalizing flag with
  | nil => rfl
  | cons ip rest ih =>
    cases h4 : To4 ip with
    | none => simp [lookupLoop, h4, List.filter, ih]
    | some v4 =>
      simp only [List.filter, h4, Option.isSome_some, lookupLoop]
      split_ifs <;> exact ih _

/-- The effects after the gate, read off the trace of a request that reached it. -/
theorem handleRequest_after_gate (trackers : List (GoString × Bool)) (w : World)
    (stream : List Nat) (dh : GoString) (hhost : targetHost stream = some dh) :
    Event.gate (blockFlag trackers w dh) ∈ handleRequest trackers w stream ∧
      (∀ e ∈ handleRequest trackers w stream, e.isLookup = true → e = Event.lookupIP dh) ∧
      (blockFlag trackers w dh = true →
        ∀ e ∈ handleRequest trackers w stream, e.isDial = false ∧ e.isTunnel = false) ∧
      (blockFlag trackers w dh = false →
        ∃ network address, decodeHeader stream = some (network, address) ∧
          (network = ascii "udp" →
            Event.tunnel address ∈ handleRequest trackers w stream) ∧
          (network ≠ ascii "udp" →
            Event.dial network address (w.dial network address) ∈
              handleRequest trackers w stream)) := by
  obtain ⟨network, address, hdec, ht⟩ := handleRequest_of_targetHost trackers w stream dh hhost
  rw [ht]
  have hg : ∀ e ∈ gateEvents dh, e = Event.lookupIP dh := by
    intro e he
    rcases gateEvents_cases dh with ⟨_, h⟩ | ⟨_, h⟩ <;> simp [h] at he
    exact he
  refine ⟨by simp, ?_, ?_, ?_⟩
  · intro e he hl
    simp only [List.mem_cons, List.mem_append] at he
    rcases he with rfl | rfl | he | rfl | he
    · simp [Event.isLookup] at hl
    · simp [Event.isLookup] at hl
    · exact hg e he
    · simp [Event.isLookup] at hl
    · split_ifs at he <;> simp at he <;>
        (try rcases he with rfl | rfl | rfl | rfl | rfl | rfl) <;>
        simp [Event.isLookup] at hl
  · intro hb e he
    simp only [hb, if_true, List.mem_cons, List.mem_append, List.mem_singleton,
      List.not_mem_nil, or_false] at he
    rcases he with rfl | rfl | he | rfl | rfl | rfl
    · simp [Event.isDial, Event.isTunnel]
    · simp [Event.isDial, Event.isTunnel]
    · rw [hg e he]; simp [Event.isDial, Event.isTunnel]
    · simp [Event.isDial, Event.isTunnel]
    · simp [Event.isDial, Event.isTunnel]
    · simp [Event.isDial, Event.isTunnel]
  · intro hb
    refine ⟨network, address, hdec, ?_, ?_⟩
    · intro hu
      simp [hb, hu]
    · intro hu
      simp [hb, hu]

/-- C3. For a request whose target host `dh`, split off the decoded address,
is a literal IP address: the block flag is set exactly when `dh` is a key of
`torrentTrackers`; nothing is resolved; when the flag is set no dial and no
tunnel call is made; when it is not set the handler goes on to the tunnel
(udp) or to the dial (any other transport). -/
theorem handleRequest_literal_destination (w : World) (stream : List Nat) (dh : GoString)
    (ip : IP) (hhost : targetHost stream = some dh) (hlit : ParseIP dh = some ip) :
    (blockFlag torrentTrackers w dh = true ↔ dh ∈ torrentTrackers.map Prod.fst) ∧
      Event.gate (blockFlag torrentTrackers w dh) ∈ handleRequest torrentTrackers w stream ∧
      (∀ e ∈ handleRequest torrentTrackers w stream, e.isLookup = false) ∧
      (blockFlag torrentTrackers w dh = true →
        ∀ e ∈ handleRequest torrentTrackers w stream, e.isDial = false ∧ e.isTunnel = false) ∧
      (blockFlag torrentTrackers w dh = false →
        ∃ network address, decodeHeader stream = some (network, address) ∧
          (network = ascii "udp" →
            Event.tunnel address ∈ handleRequest torrentTrackers w stream) ∧
          (network ≠ ascii "udp" →
            Event.dial network address (w.dial network address) ∈
              handleRequest torrentTrackers w stream)) := by
  obtain ⟨hgate, hlook, hblocked, hfree⟩ :=
    handleRequest_after_gate torrentTrackers w stream dh hhost
  refine ⟨?_, hgate, ?_, hblocked, hfree⟩
  · rw [← mapIndex_iff_mem torrentTrackers torrentTrackers_all_true dh]
    simp [blockFlag, hlit, checkIfDestinationIsBlocked]
  · intro e he
    obtain ⟨network, address, hdec, ht⟩ :=
      handleRequest_of_targetHost torrentTrackers w stream dh hhost
    cases hl : e.isLookup with
    | false => rfl
    | true =>
      have h1 := hlook e he hl
      subst h1
      rw [ht] at he
      have hg : gateEvents dh = [] := by simp [gateEvents, hlit]
      rw [hg] at he
      simp only [List.nil_append, List.mem_cons] at he
      rcases he with he | he | he | he
      · simp at he
      · simp at he
      · simp at he
      · split_ifs at he <;> simp at he

/-- A tracker address is blocked, whatever the transport. -/
theorem handleRequest_literal_destination_witness :
    targetHost (ascii "udp@93.158.213.92$6969\r") = some (ascii "93.158.213.92") ∧
      ParseIP (ascii "93.158.213.92") =
        some [0, 0, 0, 0, 0, 0, 0, 0, 0, 0, 255, 255, 93, 158, 213, 92] ∧
      (blockFlag torrentTrackers quietWorld (ascii "93.158.213.92") = true ↔
        ascii "93.158.213.92" ∈ torrentTrackers.map Prod.fst) :=
  ⟨by decide, by decide,
    (handleRequest_literal_destination quietWorld (ascii "udp@93.158.213.92$6969\r")
      (ascii "93.158.213.92") [0, 0, 0, 0, 0, 0, 0, 0, 0, 0, 255, 255, 93, 158, 213, 92]
      (by decide) (by decide)).1⟩

set_option maxRecDepth 100000 in
theorem ubtoa_eq_toString : ∀ v < 256, ubtoa v = ascii (toString v) := by decide

theorem ascii_append (s t : String) : ascii (s ++ t) = ascii s ++ ascii t := by
  simp [ascii]

/-- On four bytes `IP.String` gives the dotted-decimal text. -/
theorem IP_String_eq_dottedDecimal (a b c d : Nat) (ha : a < 256) (hb : b < 256)
    (hc : c < 256) (hd : d < 256) : IP.String [a, b, c, d] = dottedDecimal a b c d := by
  simp only [IP.String, dottedDecimal, ascii_append, List.map, List.intersperse,
    ubtoa_eq_toString a ha, ubtoa_eq_toString b hb, ubtoa_eq_toString c hc,
    ubtoa_eq_toString d hd]
  have hdot : ascii "." = [46] := by decide
  simp [hdot]

theorem length_four (v : List Nat) (h : v.length = 4) : ∃ a b c d, v = [a, b, c, d] := by
  rcases v with _ | ⟨a, _ | ⟨b, _ | ⟨c, _ | ⟨d, _ | ⟨e, t⟩⟩⟩⟩⟩ <;> simp at h
  exact ⟨a, b, c, d, rfl⟩

/-- The method `To4` returns the four bytes of a 4-byte address, and the last
four bytes of a 16-byte address that starts with ten zero bytes and two bytes
255; it returns nil on every other slice. -/
theorem To4_eq_some_iff (ip v4 : IP) :
    To4 ip = some v4 ↔
      ∃ a b c d, v4 = [a, b, c, d] ∧
        (ip = [a, b, c, d] ∨ ip = [0, 0, 0, 0, 0, 0, 0, 0, 0, 0, 255, 255, a, b, c, d]) := by
  constructor
  · intro h
    unfold To4 at h
    split at h
    · next h4 =>
      simp only [Option.some.injEq] at h
      subst h
      obtain ⟨a, b, c, d, rfl⟩ := length_four ip h4
      exact ⟨a, b, c, d, rfl, Or.inl rfl⟩
    · split at h
      · next h16 =>
        simp only [Option.some.injEq] at h
        subst h
        obtain ⟨hlen, hz, h10, h11⟩ := h16
        rcases ip with _ | ⟨x0, _ | ⟨x1, _ | ⟨x2, _ | ⟨x3, _ | ⟨x4, _ | ⟨x5, _ | ⟨x6, _ | ⟨x7, _ | ⟨x8, _ | ⟨x9, _ | ⟨x10, _ | ⟨x11, _ | ⟨x12, _ | ⟨x13, _ | ⟨x14, _ | ⟨x15, _ | ⟨x16, t⟩⟩⟩⟩⟩⟩⟩⟩⟩⟩⟩⟩⟩⟩⟩⟩⟩ <;>
          simp at hlen
        simp at hz h10 h11
        obtain ⟨rfl, rfl, rfl, rfl, rfl, rfl, rfl, rfl, rfl, rfl⟩ := hz
        subst h10 h11
        exact ⟨x12, x13, x14, x15, by simp, Or.inr rfl⟩
      · simp at h
  · rintro ⟨a, b, c, d, rfl, rfl | rfl⟩
    · simp [To4]
    · simp [To4]

/-- The loop over the resolved addresses sets the flag exactly when one of
them, of four bytes or of sixteen bytes with the IPv4 prefix, has its
dotted-decimal text among the keys of the map. -/
theorem lookupLoop_false_iff_dotted (ips : List IP) (hbytes : ∀ ip ∈ ips, ∀ b ∈ ip, b < 256) :
    lookupLoop torrentTrackers ips false = true ↔
      ∃ ip ∈ ips, ∃ a b c d,
        (ip = [a, b, c, d] ∨
          ip = [0, 0, 0, 0, 0, 0, 0, 0, 0, 0, 255, 255, a, b, c, d]) ∧
        dottedDecimal a b c d ∈ torrentTrackers.map Prod.fst := by
  rw [lookupLoop_false_iff]
  simp only [checkIfDestinationIsBlocked,
    mapIndex_iff_mem torrentTrackers torrentTrackers_all_true]
  constructor
  · rintro ⟨ip, hip, v4, h4, hmem⟩
    obtain ⟨a, b, c, d, rfl, hform⟩ := (To4_eq_some_iff ip v4).1 h4
    have hb := hbytes ip hip
    have hlt : a < 256 ∧ b < 256 ∧ c < 256 ∧ d < 256 := by
      rcases hform with rfl | rfl
      · exact ⟨hb a (by simp), hb b (by simp), hb c (by simp), hb d (by simp)⟩
      · exact ⟨hb a (by simp), hb b (by simp), hb c (by simp), hb d (by simp)⟩
    rw [IP_String_eq_dottedDecimal a b c d hlt.1 hlt.2.1 hlt.2.2.1 hlt.2.2.2] at hmem
    exact ⟨ip, hip, a, b, c, d, hform, hmem⟩
  · rintro ⟨ip, hip, a, b, c, d, hform, hmem⟩
    have hb := hbytes ip hip
    have hlt : a < 256 ∧ b < 256 ∧ c < 256 ∧ d < 256 := by
      rcases hform with rfl | rfl
      · exact ⟨hb a (by simp), hb b (by simp), hb c (by simp), hb d (by simp)⟩
      · exact ⟨hb a (by simp), hb b (by simp), hb c (by simp), hb d (by simp)⟩
    refine ⟨ip, hip, [a, b, c, d], (To4_eq_some_iff ip _).2 ⟨a, b, c, d, rfl, hform⟩, ?_⟩
    rw [IP_String_eq_dottedDecimal a b c d hlt.1 hlt.2.1 hlt.2.2.1 hlt.2.2.2]
    exact hmem

/-- C4. For a request whose target host `dh`, split off the decoded address,
is not a literal IP address: the handler resolves `dh`; the block flag is set
exactly when some resolved address with an IPv4 form (four bytes, or sixteen
bytes with the IPv4 prefix) has its dotted-decimal text among the keys of
`torrentTrackers`; the flag depends only on the resolved addresses that have
an IPv4 form; with no resolved address the flag is not set; when the flag is
set nothing is dialed, and when it is not set the handler goes on to the
tunnel (udp) or to the dial (any other transport). -/
theorem handleRequest_named_destination (w : World) (stream : List Nat) (dh : GoString)
    (hhost : targetHost stream = some dh) (hname : ParseIP dh = none) :
    Event.lookupIP dh ∈ handleRequest torrentTrackers w stream ∧
      (blockFlag torrentTrackers w dh = true ↔
        ∃ ip ∈ w.lookupIP dh, ∃ v4, To4 ip = some v4 ∧
          IP.String v4 ∈ torrentTrackers.map Prod.fst) ∧
      ((∀ ip ∈ w.lookupIP dh, ∀ b ∈ ip, b < 256) →
        (blockFlag torrentTrackers w dh = true ↔
          ∃ ip ∈ w.lookupIP dh, ∃ a b c d,
            (ip = [a, b, c, d] ∨
              ip = [0, 0, 0, 0, 0, 0, 0, 0, 0, 0, 255, 255, a, b, c, d]) ∧
            dottedDecimal a b c d ∈ torrentTrackers.map Prod.fst)) ∧
      blockFlag torrentTrackers w dh =
        lookupLoop torrentTrackers ((w.lookupIP dh).filter (fun a => (To4 a).isSome)) false ∧
      (w.lookupIP dh = [] → blockFlag torrentTrackers w dh = false) ∧
      Event.gate (blockFlag torrentTrackers w dh) ∈ handleRequest torrentTrackers w stream ∧
      (blockFlag torrentTrackers w dh = true →
        ∀ e ∈ handleRequest torrentTrackers w stream, e.isDial = false ∧ e.isTunnel = false) ∧
      (blockFlag torrentTrackers w dh = false →
        ∃ network address, decodeHeader stream = some (network, address) ∧
          (network = ascii "udp" →
            Event.tunnel address ∈ handleRequest torrentTrackers w stream) ∧
          (network ≠ ascii "udp" →
            Event.dial network address (w.dial network address) ∈
              handleRequest torrentTrackers w stream)) := by
  obtain ⟨hgate, _, hblocked, hfree⟩ :=
    handleRequest_after_gate torrentTrackers w stream dh hhost
  have hflag : blockFlag torrentTrackers w dh =
      lookupLoop torrentTrackers (w.lookupIP dh) false := by
    simp [blockFlag, hname]
  refine ⟨?_, ?_, ?_, ?_, ?_, hgate, hblocked, hfree⟩
  · obtain ⟨network, address, hdec, ht⟩ :=
      handleRequest_of_targetHost torrentTrackers w stream dh hhost
    rw [ht]
    simp [gateEvents, hname]
  · rw [hflag, lookupLoop_false_iff]
    simp only [checkIfDestinationIsBlocked,
      mapIndex_iff_mem torrentTrackers torrentTrackers_all_true]
  · intro hbytes
    rw [hflag]
    exact lookupLoop_false_iff_dotted (w.lookupIP dh) hbytes
  · rw [hflag]
    exact lookupLoop_filter torrentTrackers _ false
  · intro hnil
    rw [hflag, hnil]
    rfl

/-- Three names in `trackerWorld`. The name `tracker.example` resolves to an
IPv6 address and to the tracker 93.158.213.92: it is blocked and nothing is
dialed. The name `mapped.example` resolves to the tracker 185.243.218.213 in
16-byte form: it is blocked. The name `example.com` resolves to addresses
outside the blocked set: it is not blocked and the handler dials it. -/
theorem handleRequest_named_destination_witness :
    (targetHost (ascii "tcp@tracker.example$6969\r") = some (ascii "tracker.example") ∧
        ParseIP (ascii "tracker.example") = none ∧
        blockFlag torrentTrackers trackerWorld (ascii "tracker.example") = true ∧
        ∀ e ∈ handleRequest torrentTrackers trackerWorld (ascii "tcp@tracker.example$6969\r"),
          e.isDial = false ∧ e.isTunnel = false) ∧
      blockFlag torrentTrackers trackerWorld (ascii "mapped.example") = true ∧
      (blockFlag torrentTrackers trackerWorld (ascii "example.com") = false ∧
        ∃ network address,
          decodeHeader (ascii "tcp@example.com$80\r") = some (network, address) ∧
          (network = ascii "udp" →
            Event.tunnel address ∈
              handleRequest torrentTrackers trackerWorld (ascii "tcp@example.com$80\r")) ∧
          (network ≠ ascii "udp" →
            Event.dial network address (trackerWorld.dial network address) ∈
              handleRequest torrentTrackers trackerWorld (ascii "tcp@example.com$80\r"))) :=
  have hblocked : blockFlag torrentTrackers trackerWorld (ascii "tracker.example") = true :=
    ((handleRequest_named_destination trackerWorld (ascii "tcp@tracker.example$6969\r")
      (ascii "tracker.example") (by decide) (by decide)).2.2.1 (by decide)).2
      ⟨[93, 158, 213, 92], by decide, 93, 158, 213, 92, Or.inl rfl, by decide⟩
  ⟨⟨by decide, by decide, hblocked,
      (handleRequest_named_destination trackerWorld (ascii "tcp@tracker.example$6969\r")
        (ascii "tracker.example") (by decide) (by decide)).2.2.2.2.2.2.1 hblocked⟩,
    ((handleRequest_named_destination trackerWorld (ascii "tcp@mapped.example$6969\r")
      (ascii "mapped.example") (by decide) (by decide)).2.2.1 (by decide)).2
      ⟨[0, 0, 0, 0, 0, 0, 0, 0, 0, 0, 255, 255, 185, 243, 218, 213], by decide,
        185, 243, 218, 213, Or.inr rfl, by decide⟩,
    by decide,
    (handleRequest_named_destination trackerWorld (ascii "tcp@example.com$80\r")
      (ascii "example.com") (by decide) (by decide)).2.2.2.2.2.2.2 (by decide)⟩

/-! ## The loops of the source gate -/

theorem anyContains_iff (ranges : List IPNet) (ip : IP) :
    anyContains ranges ip = true ↔ ∃ n ∈ ranges, n.Contains ip = true := by
  induction ranges with
  | nil => simp [anyContains]
  | cons r rest ih =>
    by_cases hr : r.Contains ip = true
    · simp [anyContains, hr]
    · simp [anyContains, hr, ih]

theorem mem_init (rs : List GoString) (n : IPNet) :
    n ∈ init rs ↔ ∃ r ∈ rs, ParseCIDR r = some n := by
  induction rs with
  | nil => simp [init]
  | cons r rest ih =>
    cases hp : ParseCIDR r with
    | none => simp [init, hp, ih]
    | some m =>
      simp only [init, hp, List.mem_cons, ih, exists_eq_or_imp, Option.some.injEq]
      constructor
      · rintro (h | h)
        · exact Or.inl h.symm
        · exact Or.inr h
      · rintro (h | h)
        · exact Or.inl h.symm
        · exact Or.inr h

/-! ## Prefix containment in numbers -/

theorem beValue_lt (a : List Nat) (h : ∀ x ∈ a, x < 256) : beValue a < 256 ^ a.length := by
  induction a with
  | nil => simp [beValue]
  | cons b t ih =>
    have hb : b < 256 := h b (by simp)
    have ht := ih (fun x hx => h x (by simp [hx]))
    simp only [beValue, List.length_cons, pow_succ]
    nlinarith

set_option maxRecDepth 100000 in
theorem land_255 : ∀ x < 256, x &&& 255 = x := by decide

set_option maxRecDepth 100000 in
theorem land_mask_byte :
    ∀ o < 8, ∀ x < 256, x &&& (255 - 255 / 2 ^ o) = x / 2 ^ (8 - o) * 2 ^ (8 - o) := by
  decide

theorem CIDRMaskLoop_zero (l : Nat) : ∀ i, (CIDRMaskLoop l 0).getD i 0 = 0 := by
  induction l with
  | zero => intro i; simp [CIDRMaskLoop]
  | succ l ih =>
    intro i
    cases i with
    | zero => simp [CIDRMaskLoop]
    | succ i => simpa [CIDRMaskLoop] using ih i

theorem split_high (M x y r s : Nat) (hr : r < M) (hs : s < M) :
    x * M + r = y * M + s ↔ x = y ∧ r = s := by
  constructor
  · intro h
    have hM : 0 < M := by omega
    have h1 : (x * M + r) / M = (y * M + s) / M := by rw [h]
    have h2 : (x * M + r) % M = (y * M + s) % M := by rw [h]
    rw [Nat.mul_comm x M, Nat.mul_comm y M, Nat.mul_add_div hM, Nat.mul_add_div hM,
      Nat.div_eq_of_lt hr, Nat.div_eq_of_lt hs] at h1
    rw [Nat.mul_comm x M, Nat.mul_comm y M, Nat.mul_add_mod, Nat.mul_add_mod,
      Nat.mod_eq_of_lt hr, Nat.mod_eq_of_lt hs] at h2
    exact ⟨by omega, h2⟩
  · rintro ⟨rfl, rfl⟩
    rfl

theorem forall_lt_succ_iff (P : Nat → Prop) (l : Nat) :
    (∀ i < l + 1, P i) ↔ P 0 ∧ ∀ i < l, P (i + 1) := by
  constructor
  · intro h
    exact ⟨h 0 (by omega), fun i hi => h (i + 1) (by omega)⟩
  · rintro ⟨h0, hs⟩ i hi
    cases i with
    | zero => exact h0
    | succ i => exact hs i (by omega)

theorem maskedEq_iff :
    ∀ (l ones : Nat) (a b : List Nat), a.length = l → b.length = l →
      (∀ x ∈ a, x < 256) → (∀ x ∈ b, x < 256) → ones ≤ 8 * l →
      ((∀ i < l, a.getD i 0 &&& (CIDRMaskLoop l ones).getD i 0 =
          b.getD i 0 &&& (CIDRMaskLoop l ones).getD i 0) ↔
        beValue a / 2 ^ (8 * l - ones) = beValue b / 2 ^ (8 * l - ones)) := by
  intro l
  induction l with
  | zero =>
    intro ones a b ha hb _ _ _
    have ha0 : a = [] := List.length_eq_zero.mp ha
    have hb0 : b = [] := List.length_eq_zero.mp hb
    subst ha0 hb0
    simp
  | succ l ih =>
    intro ones a b ha hb ha256 hb256 hones
    cases a with
    | nil => simp at ha
    | cons a0 a1 =>
      cases b with
      | nil => simp at hb
      | cons b0 b1 =>
        have hla : a1.length = l := by simpa using ha
        have hlb : b1.length = l := by simpa using hb
        have ha0 : a0 < 256 := ha256 a0 (by simp)
        have hb0 : b0 < 256 := hb256 b0 (by simp)
        have ha1 : ∀ x ∈ a1, x < 256 := fun x hx => ha256 x (by simp [hx])
        have hb1 : ∀ x ∈ b1, x < 256 := fun x hx => hb256 x (by simp [hx])
        have hva := beValue_lt a1 ha1
        have hvb := beValue_lt b1 hb1
        rw [hla] at hva
        rw [hlb] at hvb
        have h256 : (256 : Nat) ^ l = 2 ^ (8 * l) := by
          rw [show (256 : Nat) = 2 ^ 8 by norm_num, ← pow_mul]
        rw [forall_lt_succ_iff]
        by_cases h8 : ones ≥ 8
        · -- the first mask byte is 255
          have hm : CIDRMaskLoop (l + 1) ones = 255 :: CIDRMaskLoop l (ones - 8) := by
            simp [CIDRMaskLoop, h8]
          have hk : 8 * (l + 1) - ones = 8 * l - (ones - 8) := by omega
          have hrec := ih (ones - 8) a1 b1 hla hlb ha1 hb1 (by omega)
          simp only [hm, List.getD_cons_zero, List.getD_cons_succ, land_255 a0 ha0,
            land_255 b0 hb0, hrec, hk, beValue, hla, hlb, h256]
          set k := 8 * l - (ones - 8) with hkdef
          have hkl : k ≤ 8 * l := by omega
          have hpow : (2 : Nat) ^ (8 * l) = 2 ^ (8 * l - k) * 2 ^ k := by
            rw [← pow_add]; congr 1; omega
          have hpos : 0 < (2 : Nat) ^ k := by positivity
          have hda : (a0 * 2 ^ (8 * l) + beValue a1) / 2 ^ k =
              a0 * 2 ^ (8 * l - k) + beValue a1 / 2 ^ k := by
            rw [hpow, ← Nat.mul_assoc, Nat.add_comm, Nat.add_mul_div_right _ _ hpos, Nat.add_comm]
          have hdb : (b0 * 2 ^ (8 * l) + beValue b1) / 2 ^ k =
              b0 * 2 ^ (8 * l - k) + beValue b1 / 2 ^ k := by
            rw [hpow, ← Nat.mul_assoc, Nat.add_comm, Nat.add_mul_div_right _ _ hpos, Nat.add_comm]
          have hra : beValue a1 / 2 ^ k < 2 ^ (8 * l - k) := by
            rw [Nat.div_lt_iff_lt_mul hpos, ← hpow, ← h256]; exact hva
          have hrb : beValue b1 / 2 ^ k < 2 ^ (8 * l - k) := by
            rw [Nat.div_lt_iff_lt_mul hpos, ← hpow, ← h256]; exact hvb
          rw [hda, hdb, split_high _ _ _ _ _ hra hrb]
        · -- the first mask byte is partial, the others are zero
          have ho : ones < 8 := by omega
          have hm : CIDRMaskLoop (l + 1) ones = (255 - 255 / 2 ^ ones) :: CIDRMaskLoop l 0 := by
            simp [CIDRMaskLoop, h8]
          have hk : 8 * (l + 1) - ones = 8 * l + (8 - ones) := by omega
          simp only [hm, List.getD_cons_zero, List.getD_cons_succ, CIDRMaskLoop_zero,
            Nat.and_zero, implies_true, and_true, land_mask_byte ones ho a0 ha0,
            land_mask_byte ones ho b0 hb0, hk, beValue, hla, hlb, h256]
          have hpos : 0 < (2 : Nat) ^ (8 * l) := by positivity
          have hpos2 : 0 < (2 : Nat) ^ (8 - ones) := by positivity
          have hda : (a0 * 2 ^ (8 * l) + beValue a1) / 2 ^ (8 * l + (8 - ones)) =
              a0 / 2 ^ (8 - ones) := by
            have hlt : beValue a1 < 2 ^ (8 * l) := h256 ▸ hva
            have h1 : (a0 * 2 ^ (8 * l) + beValue a1) / 2 ^ (8 * l) = a0 := by
              rw [Nat.add_comm, Nat.add_mul_div_right _ _ hpos, Nat.div_eq_of_lt hlt,
                Nat.zero_add]
            rw [pow_add, ← Nat.div_div_eq_div_mul, h1]
          have hdb : (b0 * 2 ^ (8 * l) + beValue b1) / 2 ^ (8 * l + (8 - ones)) =
              b0 / 2 ^ (8 - ones) := by
            have hlt : beValue b1 < 2 ^ (8 * l) := h256 ▸ hvb
            have h1 : (b0 * 2 ^ (8 * l) + beValue b1) / 2 ^ (8 * l) = b0 := by
              rw [Nat.add_comm, Nat.add_mul_div_right _ _ hpos, Nat.div_eq_of_lt hlt,
                Nat.zero_add]
            rw [pow_add, ← Nat.div_div_eq_div_mul, h1]
          rw [hda, hdb]
          exact Nat.mul_left_inj (by omega)

theorem ipRange_eq_cfPrefixes :
    ipRange = cfPrefixes.map (fun p => ⟨p.1, CIDRMask p.2 (8 * p.1.length)⟩) := by
  decide

theorem range_all_iff (l : Nat) (P : Nat → Bool) :
    (List.range l).all P = true ↔ ∀ i < l, P i = true := by
  simp [List.all_eq_true]

theorem To4_of_length_four (x : List Nat) (h : x.length = 4) : To4 x = some x := by
  simp [To4, h]

theorem To4_length (x y : List Nat) (h : To4 x = some y) :
    y.length = 4 := by
  unfold To4 at h
  split_ifs at h with h1 h2
  · simp at h; subst h; exact h1
  · simp at h; subst h
    simp [List.length_take, List.length_drop, h2.1]
  
theorem To4_bytes (x y : List Nat) (h : To4 x = some y) (hx : ∀ b ∈ x, b < 256) :
    ∀ b ∈ y, b < 256 := by
  unfold To4 at h
  split_ifs at h with h1 h2
  · simp at h; subst h; exact hx
  · simp at h; subst h
    intro b hb
    exact hx b (List.mem_of_mem_drop (List.mem_of_mem_take hb))

/-- The method `IPNet.Contains` on a prefix as `ParseCIDR` builds it, IPv4 or
plain IPv6: the address, in its 4-byte form when it has one, lies inside the
prefix. -/
theorem Contains_iff_liesInside (nn : List Nat) (ones : Nat) (ip : IP)
    (hnn : nn.length = 4 ∨ (nn.length = 16 ∧ To4 nn = none))
    (hnb : ∀ b ∈ nn, b < 256) (hones : ones ≤ 8 * nn.length)
    (hib : ∀ b ∈ ip, b < 256) :
    IPNet.Contains ⟨nn, CIDRMask ones (8 * nn.length)⟩ ip = true ↔
      liesInside nn ones ((To4 ip).getD ip) := by
  have hmask : CIDRMask ones (8 * nn.length) = CIDRMaskLoop nn.length ones := by
    rcases hnn with h | ⟨h, _⟩ <;> simp [CIDRMask, h] <;> omega
  have hmlen : ∀ l o, (CIDRMaskLoop l o).length = l := by
    intro l
    induction l with
    | zero => intro o; simp [CIDRMaskLoop]
    | succ l ih => intro o; unfold CIDRMaskLoop; split_ifs <;> simp [ih]
  have hnm : networkNumberAndMask ⟨nn, CIDRMask ones (8 * nn.length)⟩ =
      some (nn, CIDRMaskLoop nn.length ones) := by
    rw [hmask]
    rcases hnn with h | ⟨h, h4⟩
    · simp [networkNumberAndMask, To4_of_length_four nn h, hmlen, h]
    · simp [networkNumberAndMask, h4, hmlen, h]
  have hxb : ∀ b ∈ (To4 ip).getD ip, b < 256 := by
    cases h4 : To4 ip with
    | none => simpa using hib
    | some y => simpa using To4_bytes ip y h4 hib
  unfold IPNet.Contains liesInside
  simp only [hnm, Option.getD_some]
  generalize (To4 ip).getD ip = x at hxb ⊢
  by_cases hl : x.length = nn.length
  · simp only [hl, ne_eq, not_true_eq_false, if_false, true_and, range_all_iff,
      decide_eq_true_eq]
    rw [← maskedEq_iff nn.length ones x nn hl rfl hxb hnb hones]
    constructor
    · intro h i hi; exact (h i hi).symm
    · intro h i hi; exact (h i hi).symm
  · simp [hl]

theorem cfPrefixes_wf :
    ∀ p ∈ cfPrefixes, (p.1.length = 4 ∨ (p.1.length = 16 ∧ To4 p.1 = none)) ∧
      (∀ b ∈ p.1, b < 256) ∧ p.2 ≤ 8 * p.1.length := by
  decide

/-- The loop of `checkIfSourceIsAllowed` over the loaded ranges, in numbers: the
address, in its 4-byte form when it has one, lies inside one of the prefixes
of `cfRanges`. -/
theorem anyContains_ipRange_iff (ip : IP) (hb : ∀ b ∈ ip, b < 256) :
    anyContains ipRange ip = true ↔
      ∃ p ∈ cfPrefixes, liesInside p.1 p.2 ((To4 ip).getD ip) := by
  rw [anyContains_iff, ipRange_eq_cfPrefixes]
  constructor
  · rintro ⟨n, hn, hc⟩
    obtain ⟨p, hp, rfl⟩ := List.mem_map.1 hn
    obtain ⟨h1, h2, h3⟩ := cfPrefixes_wf p hp
    exact ⟨p, hp, (Contains_iff_liesInside p.1 p.2 ip h1 h2 h3 hb).1 hc⟩
  · rintro ⟨p, hp, hl⟩
    obtain ⟨h1, h2, h3⟩ := cfPrefixes_wf p hp
    exact ⟨_, List.mem_map.2 ⟨p, hp, rfl⟩,
      (Contains_iff_liesInside p.1 p.2 ip h1 h2 h3 hb).2 hl⟩

theorem mem_set_lt (l : List Nat) (i v : Nat) (hl : ∀ b ∈ l, b < 256) (hv : v < 256) :
    ∀ b ∈ l.set i v, b < 256 := by
  intro b hb
  rcases List.mem_or_eq_of_mem_set hb with h | h
  · exact hl b h
  · rw [h]; exact hv

theorem parseIPv4Loop_bytes (len : Nat) :
    ∀ (rest : GoString) (i prev : Nat) (fields : List Nat) (val pos digLen : Nat)
      (f : List Nat) (v p : Nat),
      (∀ b ∈ fields, b < 256) → val < 256 →
      parseIPv4Loop len rest i prev fields val pos digLen = some (f, v, p) →
      (∀ b ∈ f, b < 256) ∧ v < 256 := by
  intro rest
  induction rest with
  | nil =>
    intro i prev fields val pos digLen f v p hf hv h
    simp [parseIPv4Loop] at h
    obtain ⟨rfl, rfl, rfl⟩ := h
    exact ⟨hf, hv⟩
  | cons c rest ih =>
    intro i prev fields val pos digLen f v p hf hv h
    unfold parseIPv4Loop at h
    split_ifs at h with h1 h2 h3 h4 h5 h6
    · exact ih _ _ _ _ _ _ f v p hf (by omega) h
    · exact ih _ _ _ _ _ _ f v p (mem_set_lt fields pos val hf hv) (by omega) h

theorem parseIPv4_bytes (s : GoString) (f : List Nat) (h : parseIPv4 s = some f) :
    ∀ b ∈ f, b < 256 := by
  unfold parseIPv4 at h
  cases hl : parseIPv4Loop s.length s 0 0 [0, 0, 0, 0] 0 0 0 with
  | none => simp [hl] at h
  | some r =>
    obtain ⟨fields, val, pos⟩ := r
    simp only [hl] at h
    split_ifs at h
    simp at h
    subst h
    obtain ⟨h1, h2⟩ := parseIPv4Loop_bytes s.length s 0 0 [0, 0, 0, 0] 0 0 0 fields val pos
      (by decide) (by decide) hl
    exact mem_set_lt fields 3 val h1 h2

theorem scanHex_le (s : GoString) :
    ∀ (off acc o a : Nat), acc ≤ 65535 → scanHex s off acc = some (o, a) → a ≤ 65535 := by
  induction s with
  | nil =>
    intro off acc o a hacc h
    simp [scanHex] at h
    omega
  | cons c rest ih =>
    intro off acc o a hacc h
    unfold scanHex at h
    cases hh : hexVal c with
    | none =>
      simp [hh] at h
      omega
    | some d =>
      simp only [hh] at h
      split_ifs at h with h1 h2
      exact ih _ _ o a (by omega) h

theorem getD_lt (l : List Nat) (i : Nat) (hl : ∀ b ∈ l, b < 256) : l.getD i 0 < 256 := by
  rw [List.getD_eq_getElem?_getD]
  cases h : l[i]? with
  | none => simp
  | some v => simpa using hl v (List.getElem?_mem h)

theorem parseIPv6Loop_bytes (fuel : Nat) :
    ∀ (s : GoString) (ip : List Nat) (i : Nat) (ell : Option Nat)
      (s1 : GoString) (ip1 : List Nat) (i1 : Nat) (ell1 : Option Nat),
      (∀ b ∈ ip, b < 256) →
      parseIPv6Loop fuel s ip i ell = some (s1, ip1, i1, ell1) → ∀ b ∈ ip1, b < 256 := by
  induction fuel with
  | zero =>
    intro s ip i ell s1 ip1 i1 ell1 hip h
    simp [parseIPv6Loop] at h
    obtain ⟨_, rfl, _, _⟩ := h
    exact hip
  | succ fuel ih =>
    intro s ip i ell s1 ip1 i1 ell1 hip h
    unfold parseIPv6Loop at h
    split at h
    · simp at h
      obtain ⟨_, rfl, _, _⟩ := h
      exact hip
    · split at h
      · simp at h
      · next off acc hsc =>
        have hacc : acc ≤ 65535 := scanHex_le s 0 0 off acc (by omega) hsc
        have hset : ∀ b ∈ (ip.set i (acc / 256)).set (i + 1) (acc % 256), b < 256 :=
          mem_set_lt _ _ _ (mem_set_lt _ _ _ hip (by omega)) (by omega)
        split at h
        · simp at h
        · split at h
          · split at h
            · simp at h
            · split at h
              · simp at h
              · split at h
                · simp at h
                · next ip4 h4p =>
                  have hb4 := parseIPv4_bytes s ip4 h4p
                  simp only [Option.some.injEq, Prod.mk.injEq] at h
                  obtain ⟨_, rfl, _, _⟩ := h
                  exact mem_set_lt _ _ _ (mem_set_lt _ _ _ (mem_set_lt _ _ _
                    (mem_set_lt _ _ _ hip (getD_lt ip4 0 hb4)) (getD_lt ip4 1 hb4))
                    (getD_lt ip4 2 hb4)) (getD_lt ip4 3 hb4)
          · dsimp only at h
            split at h
            · simp only [Option.some.injEq, Prod.mk.injEq] at h
              obtain ⟨_, rfl, _, _⟩ := h
              exact hset
            · split at h
              · simp at h
              · split at h
                · simp at h
                · split at h
                  · split at h
                    · simp at h
                    · split at h
                      · simp only [Option.some.injEq, Prod.mk.injEq] at h
                        obtain ⟨_, rfl, _, _⟩ := h
                        exact hset
                      · exact ih _ _ _ _ s1 ip1 i1 ell1 hset h
                  · exact ih _ _ _ _ s1 ip1 i1 ell1 hset h

theorem replicate_zero_lt (n : Nat) : ∀ b ∈ List.replicate n 0, b < 256 := by
  intro b hb
  rw [List.eq_of_mem_replicate hb]
  omega

theorem parseIPv6Groups_bytes (s : GoString) (ell : Option Nat) (ip : List Nat)
    (h : parseIPv6Groups s ell = some ip) : ∀ b ∈ ip, b < 256 := by
  unfold parseIPv6Groups at h
  split at h
  · simp at h
  · next s1 ip1 i ell1 hloop =>
    have hb := parseIPv6Loop_bytes 8 s (List.replicate 16 0) 0 ell s1 ip1 i ell1
      (replicate_zero_lt 16) hloop
    split at h
    · simp at h
    · split at h
      · split at h
        · simp at h
        · next e =>
          simp only [Option.some.injEq] at h
          subst h
          intro b hmem
          simp only [List.mem_append] at hmem
          rcases hmem with (hm | hm) | hm
          · exact hb b (List.mem_of_mem_take hm)
          · exact replicate_zero_lt _ b hm
          · exact hb b (List.mem_of_mem_drop (List.mem_of_mem_take hm))
      · split at h
        · simp at h
        · simp only [Option.some.injEq] at h
          subst h
          exact hb

theorem parseIPv6_bytes (inp : GoString) (a : Addr) (h : parseIPv6 inp = some a) :
    ∀ b ∈ a.bytes, b < 256 := by
  unfold parseIPv6 at h
  dsimp only at h
  split at h
  · simp at h
  · next s zone _ =>
    split at h
    · split at h
      · simp only [Option.some.injEq] at h
        subst h
        exact replicate_zero_lt 16
      · obtain ⟨ip, hip, rfl⟩ := Option.map_eq_some'.1 h
        exact parseIPv6Groups_bytes _ _ ip hip
    · obtain ⟨ip, hip, rfl⟩ := Option.map_eq_some'.1 h
      exact parseIPv6Groups_bytes _ _ ip hip

theorem ParseAddrScan_bytes (s : GoString) :
    ∀ (rest : GoString) (a : Addr), ParseAddrScan s rest = some a → ∀ b ∈ a.bytes, b < 256 := by
  intro rest
  induction rest with
  | nil => intro a h; simp [ParseAddrScan] at h
  | cons c rest ih =>
    intro a h
    unfold ParseAddrScan at h
    split at h
    · obtain ⟨f, hf, rfl⟩ := Option.map_eq_some'.1 h
      intro b hb
      simp only [List.mem_append] at hb
      rcases hb with hb | hb
      · revert b; decide
      · exact parseIPv4_bytes s f hf b hb
    · split at h
      · exact parseIPv6_bytes s a h
      · split at h
        · simp at h
        · exact ih a h

/-- Every byte of an address `ParseIP` returns is below 256. -/
theorem ParseIP_bytes (s : GoString) (ip : IP) (h : ParseIP s = some ip) :
    ∀ b ∈ ip, b < 256 := by
  unfold ParseIP at h
  split at h
  · simp at h
  · next a ha =>
    split at h
    · simp at h
    · simp only [Option.some.injEq] at h
      subst h
      exact ParseAddrScan_bytes s s a ha

/-- The source gate in numbers: `checkIfSourceIsAllowed` returns true exactly
when the string parses as an address that, in its 4-byte form when it has one,
lies inside one of the prefixes of `cfRanges`. -/
theorem checkIfSourceIsAllowed_iff_liesInside (s : GoString) :
    checkIfSourceIsAllowed ipRange s = true ↔
      ∃ ip, ParseIP s = some ip ∧
        ∃ p ∈ cfPrefixes, liesInside p.1 p.2 ((To4 ip).getD ip) := by
  unfold checkIfSourceIsAllowed
  cases hp : ParseIP s with
  | none => simp
  | some ip =>
    simp only [Option.some.injEq, exists_eq_left']
    exact anyContains_ipRange_iff ip (ParseIP_bytes s ip hp)

/-! ## The source gate: claim C1 -/

/-- C1. All 23 entries of `cfRanges` parse, and `init` loads them in order into
`ipRange`; `checkIfSourceIsAllowed` returns true exactly when the string
parses as an IP address that one of the prefixes parsed from `cfRanges`
contains, which is to say that the address (in its 4-byte form when it has
one) agrees with the network number of one of the 23 prefixes on the bits of
the prefix length; for a string that does not parse it returns false. -/
theorem checkIfSourceIsAllowed_iff (s : GoString) :
    (cfRanges.length = 23 ∧ ipRange.map some = cfRanges.map ParseCIDR) ∧
      (checkIfSourceIsAllowed ipRange s = true ↔
        ∃ ip, ParseIP s = some ip ∧
          ∃ r ∈ cfRanges, ∃ n, ParseCIDR r = some n ∧ n.Contains ip = true) ∧
      (checkIfSourceIsAllowed ipRange s = true ↔
        ∃ ip, ParseIP s = some ip ∧
          ∃ p ∈ cfPrefixes, liesInside p.1 p.2 ((To4 ip).getD ip)) ∧
      (ParseIP s = none → checkIfSourceIsAllowed ipRange s = false) := by
  refine ⟨⟨by decide, by decide⟩, ?_, checkIfSourceIsAllowed_iff_liesInside s, ?_⟩
  · unfold checkIfSourceIsAllowed
    cases hp : ParseIP s with
    | none => simp
    | some ip =>
      simp only [anyContains_iff, ipRange, mem_init, Option.some.injEq, exists_eq_left']
      constructor
      · rintro ⟨n, ⟨r, hr, hn⟩, hc⟩
        exact ⟨r, hr, n, hn, hc⟩
      · rintro ⟨r, hr, n, hn, hc⟩
        exact ⟨n, ⟨r, hr, hn⟩, hc⟩
  · intro hp
    simp [checkIfSourceIsAllowed, hp]

/-- A host name is not an address and is not allowed. -/
theorem checkIfSourceIsAllowed_iff_witness :
    ParseIP (ascii "relay.example") = none ∧
      checkIfSourceIsAllowed ipRange (ascii "relay.example") = false :=
  ⟨by decide, (checkIfSourceIsAllowed_iff (ascii "relay.example")).2.2.2 (by decide)⟩

/-- The source gate on addresses inside and outside the ranges, of both families. -/
theorem checkIfSourceIsAllowed_examples :
    checkIfSourceIsAllowed ipRange (ascii "127.0.0.1") = true ∧
      checkIfSourceIsAllowed ipRange (ascii "103.21.247.255") = true ∧
      checkIfSourceIsAllowed ipRange (ascii "103.21.248.0") = false ∧
      checkIfSourceIsAllowed ipRange (ascii "8.8.8.8") = false ∧
      checkIfSourceIsAllowed ipRange (ascii "::1") = true ∧
      checkIfSourceIsAllowed ipRange (ascii "2606:4700::1111") = true ∧
      checkIfSourceIsAllowed ipRange (ascii "2a06:98c7:ffff::") = true ∧
      checkIfSourceIsAllowed ipRange (ascii "2a06:98c8::") = false ∧
      checkIfSourceIsAllowed ipRange (ascii "::2") = false := by
  decide

/-- The numeric reading of the gate on two addresses: 103.21.247.255 lies
inside 103.21.244.0/22 and 103.21.248.0 lies outside it. -/
theorem liesInside_examples :
    liesInside [103, 21, 244, 0] 22 [103, 21, 247, 255] ∧
      ¬ liesInside [103, 21, 244, 0] 22 [103, 21, 248, 0] ∧
      ¬ liesInside [103, 21, 244, 0] 22 [0, 0, 0, 0, 0, 0, 0, 0, 0, 0, 0, 0, 0, 0, 0, 1] := by
  decide

/-! ## The acceptor: claim C7 -/

theorem acceptOne_conn (ranges : List IPNet) (trackers : List (GoString × Bool)) (w : World)
    (c : Nat) (remoteAddr : GoString) (stream : List Nat) :
    ∀ e ∈ acceptOne ranges trackers w c remoteAddr stream, e.conn? = some c := by
  intro e he
  unfold acceptOne at he
  cases hs : SplitHostPort remoteAddr with
  | none =>
    simp [hs] at he
    rcases he with rfl | rfl <;> rfl
  | some p =>
    obtain ⟨sh, sp⟩ := p
    simp only [hs] at he
    split_ifs at he
    all_goals
      simp at he
      first
      | (rcases he with rfl | rfl <;> rfl)
      | (rcases he with rfl | ⟨a, _, rfl⟩ <;> rfl)

theorem runLoop_conn_ge (ranges : List IPNet) (trackers : List (GoString × Bool)) (w : World)
    (accepts : List Accepted) :
    ∀ k, ∀ e ∈ runLoop ranges trackers w k accepts, ∀ c, e.conn? = some c → k ≤ c := by
  induction accepts with
  | nil => intro k e he; simp [runLoop] at he
  | cons a rest ih =>
    intro k e he c hc
    cases a with
    | error =>
      simp [runLoop] at he
      subst he
      simp [ServerEvent.conn?] at hc
    | conn remoteAddr stream =>
      simp only [runLoop, List.mem_append] at he
      rcases he with he | he
      · have := acceptOne_conn ranges trackers w k remoteAddr stream e he
        rw [this] at hc
        simp at hc
        omega
      · have := ih (k + 1) e he c hc
        omega

theorem runLoop_filter (ranges : List IPNet) (trackers : List (GoString × Bool)) (w : World)
    (accepts : List Accepted) :
    ∀ k i remoteAddr stream, accepts.get? i = some (Accepted.conn remoteAddr stream) →
      (∀ j < i, accepts.get? j ≠ some Accepted.error) →
      (runLoop ranges trackers w k accepts).filter (fun e => e.conn? = some (k + i)) =
        acceptOne ranges trackers w (k + i) remoteAddr stream := by
  induction accepts with
  | nil => intro k i remoteAddr stream h; simp at h
  | cons a rest ih =>
    intro k i remoteAddr stream hacc hlive
    cases i with
    | zero =>
      simp at hacc
      subst hacc
      simp only [runLoop, List.filter_append, Nat.add_zero]
      have h1 : (acceptOne ranges trackers w k remoteAddr stream).filter
          (fun e => e.conn? = some k) = acceptOne ranges trackers w k remoteAddr stream := by
        rw [List.filter_eq_self]
        intro e he
        simp [acceptOne_conn ranges trackers w k remoteAddr stream e he]
      have h2 : (runLoop ranges trackers w (k + 1) rest).filter
          (fun e => e.conn? = some k) = [] := by
        rw [List.filter_eq_nil_iff]
        intro e he hc
        have := runLoop_conn_ge ranges trackers w rest (k + 1) e he k (by simpa using hc)
        omega
      rw [h1, h2, List.append_nil]
    | succ i =>
      cases a with
      | error => exact absurd rfl (hlive 0 (by omega))
      | conn ra0 st0 =>
        simp only [List.get?_cons_succ] at hacc
        simp only [runLoop, List.filter_append]
        have h1 : (acceptOne ranges trackers w k ra0 st0).filter
            (fun e => e.conn? = some (k + (i + 1))) = [] := by
          rw [List.filter_eq_nil_iff]
          intro e he hc
          rw [acceptOne_conn ranges trackers w k ra0 st0 e he] at hc
          simp at hc
        have h2 := ih (k + 1) i remoteAddr stream hacc
          (fun j hj => by simpa using hlive (j + 1) (by omega))
        rw [h1, List.nil_append]
        have hk : k + 1 + i = k + (i + 1) := by omega
        rw [hk] at h2
        exact h2

theorem count_filter_conn (t : List ServerEvent) (c : Nat) (e : ServerEvent)
    (he : e.conn? = some c) :
    t.count e = (t.filter (fun x => x.conn? = some c)).count e := by
  rw [List.count_filter]
  simpa using he

theorem sessionOf_filter_conn (t : List ServerEvent) (c : Nat) :
    sessionOf c t = sessionOf c (t.filter (fun x => x.conn? = some c)) := by
  induction t with
  | nil => rfl
  | cons x rest ih =>
    cases x with
    | session c1 e =>
      by_cases hc : c1 = c
      · simp [sessionOf, List.filter, ServerEvent.conn?, hc, ih]
      · simp [sessionOf, List.filter, ServerEvent.conn?, hc, ih]
    | fatal => simp [sessionOf, List.filter, ServerEvent.conn?, ih]
    | logUnparsed c1 =>
      by_cases hc : c1 = c <;> simp [sessionOf, List.filter, ServerEvent.conn?, hc, ih]
    | logSourceBlocked c1 =>
      by_cases hc : c1 = c <;> simp [sessionOf, List.filter, ServerEvent.conn?, hc, ih]
    | close c1 =>
      by_cases hc : c1 = c <;> simp [sessionOf, List.filter, ServerEvent.conn?, hc, ih]
    | dispatch c1 =>
      by_cases hc : c1 = c <;> simp [sessionOf, List.filter, ServerEvent.conn?, hc, ih]

theorem sessionOf_map_session (c : Nat) (t : List Event) :
    sessionOf c (t.map (ServerEvent.session c)) = t := by
  induction t with
  | nil => rfl
  | cons e rest ih => simp [sessionOf, ih]

/-- C7. For the connection number `c` that `Accept` returns (no accept error
before it): when its peer address does not split into host and port, or its
peer host is rejected by `checkIfSourceIsAllowed`, the acceptor closes it once,
dispatches no handler for it, and no handler effect (read, resolution, dial,
copy) ever occurs on it; when its peer host is allowed, exactly one handler is
dispatched for it, the acceptor does not close it, and the effects on it are
those of `handleRequest`. -/
theorem Run_source_gate (ranges : List IPNet) (trackers : List (GoString × Bool)) (w : World)
    (accepts : List Accepted) (c : Nat) (remoteAddr : GoString) (stream : List Nat)
    (hacc : accepts.get? c = some (Accepted.conn remoteAddr stream))
    (hlive : ∀ j < c, accepts.get? j ≠ some Accepted.error) :
    ((SplitHostPort remoteAddr = none ∨
        ∃ sh sp, SplitHostPort remoteAddr = some (sh, sp) ∧
          checkIfSourceIsAllowed ranges sh = false) →
      (Run ranges trackers w true accepts).count (ServerEvent.dispatch c) = 0 ∧
        (Run ranges trackers w true accepts).count (ServerEvent.close c) = 1 ∧
        (∀ e, ServerEvent.session c e ∉ Run ranges trackers w true accepts) ∧
        sessionOf c (Run ranges trackers w true accepts) = []) ∧
      ((∃ sh sp, SplitHostPort remoteAddr = some (sh, sp) ∧
          checkIfSourceIsAllowed ranges sh = true) →
        (Run ranges trackers w true accepts).count (ServerEvent.dispatch c) = 1 ∧
          (Run ranges trackers w true accepts).count (ServerEvent.close c) = 0 ∧
          sessionOf c (Run ranges trackers w true accepts) =
            handleRequest trackers w stream) := by
  have hfilter := runLoop_filter ranges trackers w accepts 0 c remoteAddr stream hacc hlive
  simp only [Nat.zero_add] at hfilter
  have hrun : Run ranges trackers w true accepts = runLoop ranges trackers w 0 accepts := by
    simp [Run]
  rw [hrun]
  have hd := count_filter_conn (runLoop ranges trackers w 0 accepts) c (ServerEvent.dispatch c) rfl
  have hcl := count_filter_conn (runLoop ranges trackers w 0 accepts) c (ServerEvent.close c) rfl
  have hse := sessionOf_filter_conn (runLoop ranges trackers w 0 accepts) c
  have hmem : ∀ e, ServerEvent.session c e ∈ runLoop ranges trackers w 0 accepts →
      ServerEvent.session c e ∈ acceptOne ranges trackers w c remoteAddr stream := by
    intro e he
    rw [← hfilter]
    exact List.mem_filter.2 ⟨he, by simp [ServerEvent.conn?]⟩
  rw [hd, hcl, hse, hfilter]
  constructor
  · intro hrej
    have hone : acceptOne ranges trackers w c remoteAddr stream =
          [ServerEvent.logUnparsed c, ServerEvent.close c] ∨
        acceptOne ranges trackers w c remoteAddr stream =
          [ServerEvent.logSourceBlocked c, ServerEvent.close c] := by
      rcases hrej with hs | ⟨sh, sp, hs, hno⟩
      · left; simp [acceptOne, hs]
      · right; simp [acceptOne, hs, hno]
    refine ⟨?_, ?_, ?_, ?_⟩
    · rcases hone with h | h <;> simp [h]
    · rcases hone with h | h <;> simp [h]
    · intro e he
      have := hmem e he
      rcases hone with h | h <;> simp [h] at this
    · rcases hone with h | h <;> simp [h, sessionOf]
  · rintro ⟨sh, sp, hs, hok⟩
    have hone : acceptOne ranges trackers w c remoteAddr stream =
        ServerEvent.dispatch c :: (handleRequest trackers w stream).map (ServerEvent.session c) := by
      simp [acceptOne, hs, hok]
    rw [hone]
    refine ⟨?_, ?_, ?_⟩
    · simp [List.count_cons, List.count_eq_zero]
    · simp [List.count_cons, List.count_eq_zero]
    · exact sessionOf_map_session c _

/-- Three connections: from loopback (dispatched), from 8.8.8.8 (closed) and
with an unparsable peer address (closed). -/
theorem Run_source_gate_witness :
    (Run ipRange torrentTrackers quietWorld true
        [Accepted.conn (ascii "127.0.0.1:40000") (ascii "tcp@93.184.216.34$80\r"),
          Accepted.conn (ascii "8.8.8.8:40000") (ascii "tcp@93.184.216.34$80\r"),
          Accepted.conn (ascii "unix") []]).count (ServerEvent.dispatch 1) = 0 ∧
      (Run ipRange torrentTrackers quietWorld true
        [Accepted.conn (ascii "127.0.0.1:40000") (ascii "tcp@93.184.216.34$80\r"),
          Accepted.conn (ascii "8.8.8.8:40000") (ascii "tcp@93.184.216.34$80\r"),
          Accepted.conn (ascii "unix") []]).count (ServerEvent.dispatch 0) = 1 :=
  ⟨((Run_source_gate ipRange torrentTrackers quietWorld
      [Accepted.conn (ascii "127.0.0.1:40000") (ascii "tcp@93.184.216.34$80\r"),
        Accepted.conn (ascii "8.8.8.8:40000") (ascii "tcp@93.184.216.34$80\r"),
        Accepted.conn (ascii "unix") []] 1 (ascii "8.8.8.8:40000")
      (ascii "tcp@93.184.216.34$80\r") (by decide) (by decide)).1
      (Or.inr ⟨ascii "8.8.8.8", ascii "40000", by decide, by decide⟩)).1,
   ((Run_source_gate ipRange torrentTrackers quietWorld
      [Accepted.conn (ascii "127.0.0.1:40000") (ascii "tcp@93.184.216.34$80\r"),
        Accepted.conn (ascii "8.8.8.8:40000") (ascii "tcp@93.184.216.34$80\r"),
        Accepted.conn (ascii "unix") []] 0 (ascii "127.0.0.1:40000")
      (ascii "tcp@93.184.216.34$80\r") (by decide) (by decide)).2
      ⟨ascii "127.0.0.1", ascii "40000", by decide, by decide⟩).1⟩

/-! ## End of stream before the delimiter: claim C10 -/

/-- When the stream ends before any byte 13, the handler decodes the bytes it
read without the last one, as if that byte had been the delimiter. -/
theorem decodeHeader_eof (s : List Nat) (hne : s ≠ []) (h13 : 13 ∉ s) :
    decodeHeader s = decodeHeader (s.dropLast ++ 13 :: []) := by
  have hd : 13 ∉ s.dropLast := fun h => h13 (List.mem_of_mem_dropLast h)
  rw [decodeHeader_of_eof s h13, decodeHeader_of_delimited s.dropLast [] hd]
  have hlen : ¬ s.length < 1 := by
    cases s with
    | nil => exact absurd rfl hne
    | cons b t => simp
  simp [hlen]

/-- C10, the code at the failing input. The bytes `udp@example.com$53` followed
by the end of the stream are all returned by `ReadBytes`, yet the handler
decodes the target `example.com:5`, one byte short, and tunnels to it; the
same bytes followed by the delimiter decode to `example.com:53`. -/
theorem handleRequest_eof_drops_last_byte :
    ReadBytes 13 (ascii "udp@example.com$53") = (ascii "udp@example.com$53", true) ∧
      decodeHeader (ascii "udp@example.com$53") =
        some (ascii "udp", ascii "example.com:5") ∧
      decodeHeader (ascii "udp@example.com$53\r") =
        some (ascii "udp", ascii "example.com:53") ∧
      Event.tunnel (ascii "example.com:5") ∈
        handleRequest torrentTrackers quietWorld (ascii "udp@example.com$53") := by
  decide

end Relay
